import Mathlib

/-!
# Verification of `configs/configgen.py`

A shallow embedding of the configuration-generation script: the script renders
a template against a context with strict-undefined semantics, validates the
rendered text by parsing it as a JSON document with insertion-ordered mappings
(CPython `json.loads` with `object_pairs_hook=OrderedDict`), and serializes the
parsed document back out with two-space indentation (`json.dump(..., indent=2)`),
overwriting the output file.

Modelling notes:
* JSON numbers are modelled as integers.  Number literals with a fraction or an
  exponent (and the `NaN`/`Infinity` extensions) become floating-point values
  in the source and are outside this model.
* Strings are Lean strings (unicode scalar values).  The CPython parser accepts
  escape sequences denoting lone UTF-16 surrogates inside strings; such values
  are not representable as Lean strings and the model rejects them.  The
  serializer never produces them, so the round-trip theorems are unaffected.
-/

namespace Configgen

/-- A structured document as handled by the script's validation step: mappings
are insertion-ordered association lists (CPython `OrderedDict`), sequences are
lists, scalars are null, booleans, integers and strings. -/
inductive Json where
  | null : Json
  | bool (b : Bool) : Json
  | num (n : Int) : Json
  | str (s : String) : Json
  | arr (elems : List Json) : Json
  | obj (members : List (String × Json)) : Json

/-- First-match association-list lookup (how a key of an `OrderedDict` is read). -/
def lookupKey : List (String × Json) → String → Option Json
  | [], _ => none
  | p :: ps, k => if p.1 = k then some p.2 else lookupKey ps k

/-- One `OrderedDict` insertion: an existing key keeps its position and gets the
new value; a new key is appended at the end. -/
def odInsert (acc : List (String × Json)) (k : String) (v : Json) : List (String × Json) :=
  if acc.any (fun p => p.1 = k) then
    acc.map (fun p => if p.1 = k then (k, v) else p)
  else
    acc ++ [(k, v)]

/-- `OrderedDict(pairs)`: fold the raw pair list through `odInsert`, so each key
sits at its first-seen position and carries the value of its last occurrence. -/
def odOfPairs (ps : List (String × Json)) : List (String × Json) :=
  ps.foldl (fun acc p => odInsert acc p.1 p.2) []

mutual

/-- Apply the `object_pairs_hook=OrderedDict` collapse at every nesting level of
a raw parsed document (the hook fires innermost-first in CPython; values are
already collapsed when an enclosing object's pairs are folded). -/
def toOD : Json → Json
  | .null => .null
  | .bool b => .bool b
  | .num n => .num n
  | .str s => .str s
  | .arr l => .arr (toODList l)
  | .obj ps => .obj (odOfPairs (toODMembers ps))

def toODList : List Json → List Json
  | [] => []
  | x :: xs => toOD x :: toODList xs

def toODMembers : List (String × Json) → List (String × Json)
  | [] => []
  | p :: ps => (p.1, toOD p.2) :: toODMembers ps

end

/-- No string occurs twice in the list. -/
def keysNodup : List String → Bool
  | [] => true
  | k :: ks => !ks.contains k && keysNodup ks

mutual

/-- Every mapping of the document, at every nesting level, has pairwise
distinct keys. -/
def nodupKeys : Json → Bool
  | .null => true
  | .bool _ => true
  | .num _ => true
  | .str _ => true
  | .arr l => nodupKeysList l
  | .obj ps => keysNodup (ps.map Prod.fst) && nodupKeysMembers ps

def nodupKeysList : List Json → Bool
  | [] => true
  | x :: xs => nodupKeys x && nodupKeysList xs

def nodupKeysMembers : List (String × Json) → Bool
  | [] => true
  | p :: ps => nodupKeys p.2 && nodupKeysMembers ps

end

/-- Key list of a raw pair list with duplicates removed, keeping each key at its
first occurrence (`seen` accumulates the keys already emitted). -/
def dedupFirstAux : List String → List String → List String
  | _, [] => []
  | seen, k :: ks =>
    if seen.contains k then dedupFirstAux seen ks
    else k :: dedupFirstAux (k :: seen) ks

/-- First-seen-order key list of a raw pair list. -/
def dedupFirst (ks : List String) : List String :=
  dedupFirstAux [] ks

/-- The value of the last occurrence of `k` in a raw pair list, if any. -/
def lastVal : List (String × Json) → String → Option Json
  | [], _ => none
  | p :: ps, k =>
    match lastVal ps k with
    | some v => some v
    | none => if p.1 = k then some p.2 else none

/-! ## Serialization (`json.dump(output, fh, indent=2)`)

With a numeric `indent`, CPython separates items by a comma followed by a
newline and the item indentation, uses `": "` between a key and its value,
escapes every character outside printable ASCII (`ensure_ascii=True` default),
and keeps mapping order (`sort_keys=False` default). -/

/-- Lower-case hex digit, as produced by CPython's `\uXXXX` escapes. -/
def hexDigit (n : Nat) : Char :=
  if n < 10 then Char.ofNat ('0'.toNat + n) else Char.ofNat ('a'.toNat + n - 10)

/-- Four-digit hex body of a `\uXXXX` escape. -/
def hex4 (n : Nat) : List Char :=
  [hexDigit (n / 4096 % 16), hexDigit (n / 256 % 16), hexDigit (n / 16 % 16), hexDigit (n % 16)]

/-- Serialization of one string character under `ensure_ascii=True`: the two
mandatory escapes, the five short escapes, printable ASCII verbatim, and
`\uXXXX` (a surrogate pair beyond the BMP) for everything else. -/
def escapeChar (c : Char) : List Char :=
  if c = '"' then ['\\', '"']
  else if c = '\\' then ['\\', '\\']
  else if c = Char.ofNat 8 then ['\\', 'b']
  else if c = Char.ofNat 12 then ['\\', 'f']
  else if c = '\n' then ['\\', 'n']
  else if c = '\r' then ['\\', 'r']
  else if c = '\t' then ['\\', 't']
  else if 0x20 ≤ c.toNat ∧ c.toNat ≤ 0x7e then [c]
  else if c.toNat < 0x10000 then '\\' :: 'u' :: hex4 c.toNat
  else
    '\\' :: 'u' :: hex4 (0xd800 + (c.toNat - 0x10000) / 0x400) ++
      ('\\' :: 'u' :: hex4 (0xdc00 + (c.toNat - 0x10000) % 0x400))

def escapeChars : List Char → List Char
  | [] => []
  | c :: cs => escapeChar c ++ escapeChars cs

/-- A serialized string literal: quotes around the escaped body. -/
def dumpString (s : String) : List Char :=
  '"' :: (escapeChars s.data ++ ['"'])

/-- Decimal digit character. -/
def decDigit (n : Nat) : Char :=
  Char.ofNat ('0'.toNat + n % 10)

/-- Decimal digits of `n`, most significant first, accumulator style. -/
def natCharsAux : Nat → List Char → List Char
  | n, acc =>
    if n < 10 then decDigit n :: acc
    else natCharsAux (n / 10) (decDigit (n % 10) :: acc)
  termination_by n => n
  decreasing_by
    simp only [not_lt] at *
    exact Nat.div_lt_self (by omega) (by omega)

def natChars (n : Nat) : List Char :=
  natCharsAux n []

/-- Decimal form of an integer, as CPython prints an `int`. -/
def intChars : Int → List Char
  | .ofNat n => natChars n
  | .negSucc m => '-' :: natChars (m + 1)

/-- Newline followed by the indentation of nesting level `lvl` (two spaces per
level). -/
def newlineIndent (lvl : Nat) : List Char :=
  '\n' :: List.replicate (2 * lvl) ' '

mutual

/-- `json.dump` text of a document at nesting level `lvl`, `indent=2`. -/
def dumpVal : Nat → Json → List Char
  | _, .null => 'n' :: 'u' :: 'l' :: 'l' :: []
  | _, .bool true => 't' :: 'r' :: 'u' :: 'e' :: []
  | _, .bool false => 'f' :: 'a' :: 'l' :: 's' :: 'e' :: []
  | _, .num n => intChars n
  | _, .str s => dumpString s
  | _, .arr [] => '[' :: ']' :: []
  | lvl, .arr (x :: xs) =>
    '[' :: (newlineIndent (lvl + 1) ++
      (dumpVal (lvl + 1) x ++ (dumpElems (lvl + 1) xs ++ (newlineIndent lvl ++ [']']))))
  | _, .obj [] => '{' :: '}' :: []
  | lvl, .obj (p :: ps) =>
    '{' :: (newlineIndent (lvl + 1) ++
      (dumpMember (lvl + 1) p ++ (dumpMembers (lvl + 1) ps ++ (newlineIndent lvl ++ ['}']))))

/-- The remaining array items, each preceded by the item separator. -/
def dumpElems : Nat → List Json → List Char
  | _, [] => []
  | lvl, x :: xs => ',' :: (newlineIndent lvl ++ (dumpVal lvl x ++ dumpElems lvl xs))

/-- One `"key": value` member. -/
def dumpMember : Nat → String × Json → List Char
  | lvl, p => dumpString p.1 ++ (':' :: ' ' :: dumpVal lvl p.2)

/-- The remaining members, each preceded by the item separator. -/
def dumpMembers : Nat → List (String × Json) → List Char
  | _, [] => []
  | lvl, p :: ps => ',' :: (newlineIndent lvl ++ (dumpMember lvl p ++ dumpMembers lvl ps))

end

/-- The full `json.dump(output, fh, indent=2)` text written to the file. -/
def json_dump (d : Json) : String :=
  ⟨dumpVal 0 d⟩

/-! ## Parsing (`json.loads(raw_output, object_pairs_hook=OrderedDict)`)

A recursive-descent model of CPython's JSON scanner on the integer fragment:
whitespace is space, tab, newline, carriage return; strings support the nine
escapes and `\uXXXX` with surrogate-pair recombination and reject raw control
characters (`strict=True` default); numbers follow the JSON grammar (no leading
zeros); objects and arrays use comma separators with no trailing comma; the
top level rejects trailing non-whitespace (`Extra data`). -/

/-- JSON whitespace. -/
def isWs (c : Char) : Bool :=
  c = ' ' || c = '\t' || c = '\n' || c = '\r'

/-- Drop leading JSON whitespace. -/
def skipWs : List Char → List Char
  | [] => []
  | c :: cs => if isWs c then skipWs cs else c :: cs

/-- Value of one hex digit, either case. -/
def hexVal? (c : Char) : Option Nat :=
  if '0' ≤ c ∧ c ≤ '9' then some (c.toNat - '0'.toNat)
  else if 'a' ≤ c ∧ c ≤ 'f' then some (c.toNat - 'a'.toNat + 10)
  else if 'A' ≤ c ∧ c ≤ 'F' then some (c.toNat - 'A'.toNat + 10)
  else none

/-- Value of a four-digit hex escape body. -/
def hex4Val (c1 c2 c3 c4 : Char) : Option Nat :=
  match hexVal? c1, hexVal? c2, hexVal? c3, hexVal? c4 with
  | some a, some b, some c, some d => some (((a * 16 + b) * 16 + c) * 16 + d)
  | _, _, _, _ => none

/-- The eight single-character escapes (`\u` is handled separately). -/
def escDecode (e : Char) : Option Char :=
  if e = '"' then some '"'
  else if e = '\\' then some '\\'
  else if e = '/' then some '/'
  else if e = 'b' then some (Char.ofNat 8)
  else if e = 'f' then some (Char.ofNat 12)
  else if e = 'n' then some '\n'
  else if e = 'r' then some '\r'
  else if e = 't' then some '\t'
  else none

/-- Four hex digits and the remaining input. -/
def parseHex4 : List Char → Option (Nat × List Char)
  | c1 :: c2 :: c3 :: c4 :: rest => (hex4Val c1 c2 c3 c4).map (fun h => (h, rest))
  | _ => none

/-- After a high surrogate `h`, the input must continue with a `\uXXXX` escape
denoting a low surrogate; the pair is recombined into one code point. -/
def combineSurrogate (h : Nat) : List Char → Option (Char × List Char)
  | b1 :: b2 :: rest1 =>
    if b1 = '\\' ∧ b2 = 'u' then
      (parseHex4 rest1).bind (fun pr =>
        if 0xdc00 ≤ pr.1 ∧ pr.1 ≤ 0xdfff then
          some (Char.ofNat (0x10000 + (h - 0xd800) * 0x400 + (pr.1 - 0xdc00)), pr.2)
        else none)
    else none
  | _ => none

/-- Decode the body of a `\uXXXX` escape (the input starts after the `u`).
A high surrogate must be followed by a low one and the pair is recombined;
escapes denoting lone surrogates are rejected (CPython would produce a string
value outside the model, see the header note). -/
def scanUnicode (cs : List Char) : Option (Char × List Char) :=
  (parseHex4 cs).bind (fun pr =>
    if 0xd800 ≤ pr.1 ∧ pr.1 ≤ 0xdbff then combineSurrogate pr.1 pr.2
    else if 0xdc00 ≤ pr.1 ∧ pr.1 ≤ 0xdfff then none
    else some (Char.ofNat pr.1, pr.2))

/-- Scan one unit of a string body: the closing quote (`some (none, rest)`), or
one decoded character (`some (some ch, rest)`), or a scanning error (`none`).
A raw control character is rejected (`strict=True` default). -/
def scanStep : List Char → Option (Option Char × List Char)
  | [] => none
  | c :: cs =>
    if c = '"' then some (none, cs)
    else if c = '\\' then
      match cs with
      | [] => none
      | e :: cs2 =>
        if e = 'u' then (scanUnicode cs2).map (fun pr => (some pr.1, pr.2))
        else (escDecode e).map (fun d => (some d, cs2))
    else if c.toNat < 0x20 then none
    else some (some c, cs)

/-- Scan a string body after the opening quote; return the decoded characters
and the input after the closing quote.  The fuel only bounds the recursion —
every `scanStep` consumes at least one input character, so `length + 1` fuel is
always enough (`parseString` below). -/
def parseStringBody : Nat → List Char → Option (List Char × List Char)
  | 0, _ => none
  | fuel + 1, cs =>
    match scanStep cs with
    | none => none
    | some (none, rest) => some ([], rest)
    | some (some ch, rest) => (parseStringBody fuel rest).map (fun pr => (ch :: pr.1, pr.2))

/-- Scan a string body with sufficient fuel for the whole remaining input. -/
def parseString (cs : List Char) : Option (List Char × List Char) :=
  parseStringBody (cs.length + 1) cs

/-- Longest digit prefix and the remainder. -/
def takeDigits : List Char → List Char × List Char
  | [] => ([], [])
  | c :: cs =>
    if c.isDigit then
      let t := takeDigits cs
      (c :: t.1, t.2)
    else ([], c :: cs)

/-- Numeric value of a digit string. -/
def digitsVal (ds : List Char) : Nat :=
  ds.foldl (fun a c => 10 * a + (c.toNat - '0'.toNat)) 0

/-- Unsigned integer literal: `0`, or a nonzero digit followed by the longest
run of digits (the JSON grammar admits no leading zeros). -/
def parseUInt : List Char → Option (Nat × List Char)
  | [] => none
  | c :: cs =>
    if c = '0' then some (0, cs)
    else if c.isDigit then
      let t := takeDigits cs
      some (digitsVal (c :: t.1), t.2)
    else none

/-- Integer literal with optional minus sign. -/
def parseNumber : List Char → Option (Int × List Char)
  | [] => none
  | c :: cs =>
    if c = '-' then (parseUInt cs).map (fun p => (-(p.1 : Int), p.2))
    else (parseUInt (c :: cs)).map (fun p => ((p.1 : Int), p.2))

mutual

/-- Scan one JSON value after optional whitespace; the fuel bounds the nesting
of recursive calls and is in surplus whenever it exceeds the document weight
(`rt_value` below). -/
def parseValue : Nat → List Char → Option (Json × List Char)
  | 0, _ => none
  | fuel + 1, cs =>
    match skipWs cs with
    | [] => none
    | c :: cs' =>
      if c = '{' then
        match skipWs cs' with
        | [] => none
        | c2 :: cs2 =>
          if c2 = '}' then some (.obj [], cs2)
          else (parseMembers fuel (c2 :: cs2)).map (fun p => (.obj p.1, p.2))
      else if c = '[' then
        match skipWs cs' with
        | [] => none
        | c2 :: cs2 =>
          if c2 = ']' then some (.arr [], cs2)
          else (parseElements fuel (c2 :: cs2)).map (fun p => (.arr p.1, p.2))
      else if c = '"' then
        (parseString cs').map (fun p => (.str ⟨p.1⟩, p.2))
      else if c = 't' then
        match cs' with
        | 'r' :: 'u' :: 'e' :: r => some (.bool true, r)
        | _ => none
      else if c = 'f' then
        match cs' with
        | 'a' :: 'l' :: 's' :: 'e' :: r => some (.bool false, r)
        | _ => none
      else if c = 'n' then
        match cs' with
        | 'u' :: 'l' :: 'l' :: r => some (.null, r)
        | _ => none
      else if c = '-' ∨ c.isDigit then
        (parseNumber (c :: cs')).map (fun p => (.num p.1, p.2))
      else none

/-- Scan the members of an object after its opening brace (the empty object was
already handled): `"key": value` pairs separated by commas, closed by a brace. -/
def parseMembers : Nat → List Char → Option (List (String × Json) × List Char)
  | 0, _ => none
  | fuel + 1, cs =>
    match skipWs cs with
    | [] => none
    | c :: cs' =>
      if c = '"' then
        match parseString cs' with
        | none => none
        | some (k, r1) =>
          match skipWs r1 with
          | [] => none
          | c2 :: r2 =>
            if c2 = ':' then
              match parseValue fuel r2 with
              | none => none
              | some (v, r3) =>
                match skipWs r3 with
                | [] => none
                | c3 :: r4 =>
                  if c3 = ',' then
                    (parseMembers fuel r4).map (fun p => ((⟨k⟩, v) :: p.1, p.2))
                  else if c3 = '}' then some ([(⟨k⟩, v)], r4)
                  else none
            else none
      else none

/-- Scan the elements of an array after its opening bracket (the empty array
was already handled): values separated by commas, closed by a bracket. -/
def parseElements : Nat → List Char → Option (List Json × List Char)
  | 0, _ => none
  | fuel + 1, cs =>
    match parseValue fuel cs with
    | none => none
    | some (v, r) =>
      match skipWs r with
      | [] => none
      | c :: r2 =>
        if c = ',' then (parseElements fuel r2).map (fun p => (v :: p.1, p.2))
        else if c = ']' then some ([v], r2)
        else none

end

/-- Scan a whole document: one value, then only whitespace may remain.  The
fuel `length + 1` is in surplus for every scannable input (`rt_value` and
`weight_le_dump` below discharge it on serializer output). -/
def parseDocument (s : String) : Option Json :=
  match parseValue (s.length + 1) s.data with
  | some (v, rest) => if skipWs rest = [] then some v else none
  | none => none

/-- `json.loads(raw_output, object_pairs_hook=OrderedDict)`: the scanned
document with the `OrderedDict` collapse applied to every mapping. -/
def json_loads (s : String) : Option Json :=
  (parseDocument s).map toOD

/-! ## The templating layer and the script -/

/-- A context value: the Python data the script passes as keyword arguments
(strings, booleans, integers, lists, string-keyed dictionaries). -/
inductive PyVal where
  | str (s : String) : PyVal
  | bool (b : Bool) : PyVal
  | num (n : Int) : PyVal
  | list (elems : List PyVal) : PyVal
  | dict (items : List (String × PyVal)) : PyVal

/-- A rendering context: the keyword arguments of one `generate_config` call. -/
abbrev Context := List (String × PyVal)

/-- First-match context lookup. -/
def ctxLookup : Context → String → Option PyVal
  | [], _ => none
  | p :: ps, k => if p.1 = k then some p.2 else ctxLookup ps k

mutual

/-- Modelled from the spec: the text a substituted placeholder contributes to
the rendered output.  The template language is treated as an opaque
text-substitution engine, so no claim depends on the exact form of this
conversion; it only needs to be some fixed total function. -/
def pyStr : PyVal → String
  | .str s => s
  | .bool true => "True"
  | .bool false => "False"
  | .num n => ⟨intChars n⟩
  | .list l => "[" ++ pyStrList l ++ "]"
  | .dict d => "«dict»" ++ pyStrDict d

def pyStrList : List PyVal → String
  | [] => ""
  | [x] => pyStr x
  | x :: xs => pyStr x ++ ", " ++ pyStrList xs

def pyStrDict : List (String × PyVal) → String
  | [] => ""
  | p :: ps => p.1 ++ "=" ++ pyStr p.2 ++ ";" ++ pyStrDict ps

end

/-- Modelled from the spec: one node of a template, which the spec describes as
an opaque text-substitution engine (the template files and the jinja2 engine
are not under `src/`).  A template interleaves literal text with placeholder
references. -/
inductive TemplatePart where
  | text (s : String) : TemplatePart
  | var (name : String) : TemplatePart

/-- Modelled from the spec: a template is a sequence of parts. -/
abbrev Template := List TemplatePart

/-- The placeholder names a template references. -/
def referencedVars : Template → List String
  | [] => []
  | .text _ :: rest => referencedVars rest
  | .var n :: rest => n :: referencedVars rest

/-- A rendering failure: `jinja2.StrictUndefined` raises on the first use of a
placeholder with no context entry. -/
inductive RenderError where
  | undefinedVariable (name : String) : RenderError
  deriving Repr, DecidableEq

/-- Modelled from the spec: strict-undefined rendering.  Parts are emitted left
to right; a placeholder substitutes the text of its context entry, and a
placeholder with no context entry fails the whole render. -/
def renderTemplate (t : Template) (ctx : Context) : Except RenderError String :=
  match t with
  | [] => .ok ""
  | .text s :: rest =>
    match renderTemplate rest ctx with
    | .ok tail => .ok (s ++ tail)
    | .error e => .error e
  | .var n :: rest =>
    match ctxLookup ctx n with
    | none => .error (.undefinedVariable n)
    | some v =>
      match renderTemplate rest ctx with
      | .ok tail => .ok (pyStr v ++ tail)
      | .error e => .error e

/-- The filesystem state the script touches: file contents by path, plus which
paths can be opened for writing. -/
structure FS where
  contents : String → Option String
  writable : String → Bool

/-- `open(path, 'w')` followed by a full write: the new text replaces whatever
the path held before. -/
def FS.write (fs : FS) (path : String) (text : String) : FS :=
  { fs with contents := fun q => if q = path then some text else fs.contents q }

/-- The failure taxonomy of one `generate_config` call: missing template,
undefined placeholder, rendered text that is not valid JSON, unwritable output
path. -/
inductive GenError where
  | templateNotFound (name : String) : GenError
  | undefinedVariable (name : String) : GenError
  | invalidJson : GenError
  | ioError (path : String) : GenError
  deriving Repr, DecidableEq

/-- `generate_config(template_path, template, output_file, **context)`: look the
template up in the environment, render it strictly, validate the rendered text
by parsing it as JSON, and only then open and overwrite the output file.  The
first failing step aborts the call with the filesystem untouched.  `env` stands
for the `jinja2.Environment` built over `template_path`: the mapping from
template names to the templates the loader finds. -/
def generate_config (env : String → Option Template) (template : String)
    (output_file : String) (context : Context) (fs : FS) : Option GenError × FS :=
  match env template with
  | none => (some (.templateNotFound template), fs)
  | some t =>
    match renderTemplate t context with
    | .error (.undefinedVariable n) => (some (.undefinedVariable n), fs)
    | .ok raw_output =>
      match json_loads raw_output with
      | none => (some .invalidJson, fs)
      | some output =>
        if fs.writable output_file then (none, fs.write output_file (json_dump output))
        else (some (.ioError output_file), fs)

/-- `front_envoy_clusters`: the internal services the front Envoy routes to. -/
def front_envoy_clusters : PyVal :=
  .dict [("service1", .dict []), ("service2", .dict []), ("service3", .dict [])]

/-- `service_to_service_envoy_clusters`: the internal services local Envoys
route to. -/
def service_to_service_envoy_clusters : PyVal :=
  .dict [("ratelimit", .dict []), ("service1", .dict []), ("service3", .dict [])]

/-- `external_virtual_hosts`: the external hosts reachable from local Envoys,
with TLS verification metadata. -/
def external_virtual_hosts : PyVal :=
  .list [.dict
    [("name", .str "dynamodb_iad"),
     ("address", .str "tcp://127.0.0.1:9204"),
     ("hosts", .list [.dict
       [("name", .str "dynamodb_iad"),
        ("domain", .str "*"),
        ("remote_address", .str "dynamodb.us-east-1.amazonaws.com:443"),
        ("verify_subject_alt_name", .list [.str "dynamodb.us-east-1.amazonaws.com"]),
        ("ssl", .bool true)]]),
     ("is_amzn_service", .bool true),
     ("cluster_type", .str "logical_dns")]]

/-- `mongos_servers`: the mongo clusters local Envoys can talk to, each with its
mongos router list and rate-limit flag. -/
def mongos_servers : PyVal :=
  .dict [("somedb", .dict
    [("address", .str "tcp://127.0.0.1:27019"),
     ("hosts", .list
       [.str "router1.yourcompany.net:27817",
        .str "router2.yourcompany.net:27817",
        .str "router3.yourcompany.net:27817",
        .str "router4.yourcompany.net:27817"]),
     ("ratelimit", .bool true)])]

/-- The module-level demo data bindings of the script, in source order. -/
def static_demo_data : List (String × PyVal) :=
  [("front_envoy_clusters", front_envoy_clusters),
   ("service_to_service_envoy_clusters", service_to_service_envoy_clusters),
   ("external_virtual_hosts", external_virtual_hosts),
   ("mongos_servers", mongos_servers)]

/-- The three generation calls of the script body, in order:
template name, output path under `sys.argv[1]`, context. -/
def generation_calls (output_dir : String) : List (String × String × Context) :=
  [("envoy_front_proxy.template.json",
    output_dir ++ "/envoy_front_proxy.json",
    [("clusters", front_envoy_clusters)]),
   ("envoy_double_proxy.template.json",
    output_dir ++ "/envoy_double_proxy.json",
    []),
   ("envoy_service_to_service.template.json",
    output_dir ++ "/envoy_service_to_service.json",
    [("internal_virtual_hosts", service_to_service_envoy_clusters),
     ("external_virtual_hosts", external_virtual_hosts),
     ("mongos_servers", mongos_servers)])]

/-- Run generation calls in sequence; an uncaught failure aborts the run and
the remaining calls never execute. -/
def runCalls (env : String → Option Template) :
    List (String × String × Context) → FS → Option GenError × FS
  | [], fs => (none, fs)
  | (t, out, ctx) :: rest, fs =>
    match generate_config env t out ctx fs with
    | (some e, fs') => (some e, fs')
    | (none, fs') => runCalls env rest fs'

/-- The script body: the three `generate_config` calls against the template
environment, writing under the command-line output directory. -/
def main_script (env : String → Option Template) (output_dir : String) (fs : FS) :
    Option GenError × FS :=
  runCalls env (generation_calls output_dir) fs

/-- A named cluster table in the sense of the script's demo data: a nonempty
dictionary mapping cluster names to per-cluster option dictionaries (the
source's comments call `front_envoy_clusters`, `service_to_service_envoy_clusters`
and `mongos_servers` each a set of clusters). -/
def isClusterTable : PyVal → Bool
  | .dict items =>
    !items.isEmpty && items.all (fun p =>
      match p.2 with
      | .dict _ => true
      | _ => false)
  | _ => false

/-- A list of external virtual hosts with TLS verification metadata: every
entry is a table whose `hosts` are tables carrying `verify_subject_alt_name`
and `ssl` fields. -/
def isVhostListWithTls : PyVal → Bool
  | .list l =>
    !l.isEmpty && l.all (fun v =>
      match v with
      | .dict items =>
        items.any (fun p =>
          p.1 = "hosts" &&
            match p.2 with
            | .list hs =>
              !hs.isEmpty && hs.all (fun h =>
                match h with
                | .dict hf =>
                  hf.any (fun q => q.1 = "verify_subject_alt_name") &&
                    hf.any (fun q => q.1 = "ssl")
                | _ => false)
            | _ => false)
      | _ => false)
  | _ => false

/-- A sharded-router table with a per-cluster rate-limit flag: a nonempty
dictionary whose every entry carries a boolean `ratelimit` field. -/
def isMongosTableWithRatelimit : PyVal → Bool
  | .dict items =>
    !items.isEmpty && items.all (fun p =>
      match p.2 with
      | .dict fields =>
        fields.any (fun q =>
          q.1 = "ratelimit" &&
            match q.2 with
            | .bool _ => true
            | _ => false)
      | _ => false)
  | _ => false

/-- Concrete template fixture: a template whose rendered text is a valid JSON
object with keys deliberately out of alphabetical order. -/
def demo_template : Template :=
  [.text "\x7b\"b\": 1, \"a\": 2\x7d"]

/-- Concrete template fixture: a template whose rendered text is not valid
JSON. -/
def bad_json_template : Template :=
  [.text "\x7b"]

/-- Concrete template fixture: a template referencing one placeholder. -/
def undef_template : Template :=
  [.var "missing_cluster"]

/-- Concrete template environment serving the three fixtures. -/
def demo_env : String → Option Template := fun name =>
  if name = "good.template.json" then some demo_template
  else if name = "bad.template.json" then some bad_json_template
  else if name = "undef.template.json" then some undef_template
  else none

/-- Concrete template environment fixture: an environment with no templates
at all (every lookup fails). -/
def none_env : String → Option Template := fun _ => none

/-- Concrete filesystem fixture: empty and fully writable. -/
def empty_fs : FS :=
  { contents := fun _ => none, writable := fun _ => true }

/-- Concrete filesystem fixture: one pre-existing file, fully writable. -/
def prefilled_fs : FS :=
  { contents := fun q => if q = "out.json" then some "old contents" else none,
    writable := fun _ => true }

/-- The document `demo_template` renders and the script parses back. -/
def demo_doc : Json :=
  Json.obj [("b", Json.num 1), ("a", Json.num 2)]

/-- The remainder after a token must not begin with a digit for maximal-munch
number scanning to stop in the right place; every separator and closer the
serializer emits satisfies this. -/
def headNotDigit (cs : List Char) : Prop :=
  ∀ c t, cs = c :: t → c.isDigit = false

mutual

/-- Fuel consumption bound of scanning one serialized value: one unit per
`parseValue`/`parseMembers`/`parseElements` step. -/
def weight : Json → Nat
  | .null => 1
  | .bool _ => 1
  | .num _ => 1
  | .str _ => 1
  | .arr l => 1 + weightElems l
  | .obj ps => 1 + weightMembers ps

def weightElems : List Json → Nat
  | [] => 0
  | x :: xs => 1 + weight x + weightElems xs

def weightMembers : List (String × Json) → Nat
  | [] => 0
  | p :: ps => 1 + weight p.2 + weightMembers ps

end

/-- The round-trip property of one document: with enough fuel, scanning resumes
at any whitespace-padded occurrence of its serialization and returns exactly
the document and the rest of the input. -/
def RTV (d : Json) : Prop :=
  ∀ fuel lvl cs rest, weight d ≤ fuel → skipWs cs = dumpVal lvl d ++ rest →
    headNotDigit rest → parseValue fuel cs = some (d, rest)

/-! ## Structural induction for the nested document type -/

/-- Structural induction over documents, with pointwise hypotheses for the
elements of arrays and the values of objects. -/
theorem Json.indOn (P : Json → Prop)
    (hnull : P .null) (hbool : ∀ b, P (.bool b)) (hnum : ∀ n, P (.num n))
    (hstr : ∀ s, P (.str s))
    (harr : ∀ l, (∀ x ∈ l, P x) → P (.arr l))
    (hobj : ∀ ps, (∀ p ∈ ps, P p.2) → P (.obj ps)) : ∀ d, P d
  | .null => hnull
  | .bool b => hbool b
  | .num n => hnum n
  | .str s => hstr s
  | .arr l => harr l (fun x hx => Json.indOn P hnull hbool hnum hstr harr hobj x)
  | .obj ps => hobj ps (fun p hp => Json.indOn P hnull hbool hnum hstr harr hobj p.2)
  termination_by d => sizeOf d
  decreasing_by
  · have := List.sizeOf_lt_of_mem hx
    simp only [Json.arr.sizeOf_spec]
    omega
  · have h1 := List.sizeOf_lt_of_mem hp
    have h2 : sizeOf p.2 < sizeOf p := by
      obtain ⟨k, v⟩ := p
      simp only [Prod.mk.sizeOf_spec]
      omega
    simp only [Json.obj.sizeOf_spec]
    omega

/-! ## Bridges between the mutual recursors and `List` combinators -/

theorem toODList_eq_map (l : List Json) : toODList l = l.map toOD := by
  induction l with
  | nil => rfl
  | cons x xs ih => simp [toODList, ih]

theorem toODMembers_eq_map (ps : List (String × Json)) :
    toODMembers ps = ps.map (fun p => (p.1, toOD p.2)) := by
  induction ps with
  | nil => rfl
  | cons p ps ih => simp [toODMembers, ih]

theorem nodupKeysList_eq_all (l : List Json) : nodupKeysList l = l.all nodupKeys := by
  induction l with
  | nil => rfl
  | cons x xs ih => simp [nodupKeysList, ih]

theorem nodupKeysMembers_eq_all (ps : List (String × Json)) :
    nodupKeysMembers ps = ps.all (fun p => nodupKeys p.2) := by
  induction ps with
  | nil => rfl
  | cons p ps ih => simp [nodupKeysMembers, ih]

/-! ## `OrderedDict` lemmas -/

theorem odInsert_keys_of_mem {acc : List (String × Json)} {k : String} (v : Json)
    (h : k ∈ acc.map Prod.fst) : (odInsert acc k v).map Prod.fst = acc.map Prod.fst := by
  have hany : acc.any (fun p => p.1 = k) = true := by
    simp only [List.any_eq_true, decide_eq_true_eq]
    obtain ⟨p, hp, hk⟩ := List.mem_map.1 h
    exact ⟨p, hp, hk⟩
  simp only [odInsert, hany, if_true, List.map_map]
  apply List.map_congr_left
  intro p _
  by_cases hpk : p.1 = k
  · simp [hpk]
  · simp [hpk]

theorem odInsert_keys_of_not_mem {acc : List (String × Json)} {k : String} (v : Json)
    (h : ¬ k ∈ acc.map Prod.fst) :
    (odInsert acc k v).map Prod.fst = acc.map Prod.fst ++ [k] := by
  have hany : acc.any (fun p => p.1 = k) = false := by
    simp only [List.any_eq_false, decide_eq_true_eq]
    intro p hp hk
    exact h (List.mem_map.2 ⟨p, hp, hk⟩)
  simp [odInsert, hany]

theorem contains_iff_mem_map {seen : List String} {k : String} :
    seen.contains k = true ↔ k ∈ seen := by
  simp [List.contains_iff_exists_mem_beq, beq_iff_eq, eq_comm]

/-- `dedupFirstAux` only looks at the membership of `seen`, not its order. -/
theorem dedupFirstAux_congr {s1 s2 : List String} (h : ∀ x, x ∈ s1 ↔ x ∈ s2) :
    ∀ ks, dedupFirstAux s1 ks = dedupFirstAux s2 ks := by
  intro ks
  induction ks generalizing s1 s2 with
  | nil => rfl
  | cons k ks ih =>
    simp only [dedupFirstAux]
    by_cases hk : k ∈ s1
    · rw [if_pos (contains_iff_mem_map.2 hk), if_pos (contains_iff_mem_map.2 ((h k).1 hk))]
      exact ih h
    · rw [if_neg (fun hc => hk (contains_iff_mem_map.1 hc)),
        if_neg (fun hc => hk ((h k).2 (contains_iff_mem_map.1 hc)))]
      refine congrArg _ (ih ?_)
      intro x
      simp only [List.mem_cons]
      exact or_congr Iff.rfl (h x)

/-- Folding pairs through `odInsert` produces the first-seen key order. -/
theorem foldl_odInsert_keys (ps : List (String × Json)) :
    ∀ acc : List (String × Json),
      (ps.foldl (fun acc p => odInsert acc p.1 p.2) acc).map Prod.fst =
        acc.map Prod.fst ++ dedupFirstAux (acc.map Prod.fst) (ps.map Prod.fst) := by
  induction ps with
  | nil => intro acc; simp [dedupFirstAux]
  | cons p ps ih =>
    intro acc
    simp only [List.foldl_cons, List.map_cons, dedupFirstAux]
    by_cases h : p.1 ∈ acc.map Prod.fst
    · rw [if_pos (contains_iff_mem_map.2 h), ih, odInsert_keys_of_mem _ h]
    · rw [if_neg (fun hc => h (contains_iff_mem_map.1 hc)), ih,
        odInsert_keys_of_not_mem _ h]
      rw [List.append_assoc, List.singleton_append]
      refine congrArg _ (congrArg _ (dedupFirstAux_congr ?_ _))
      intro x
      simp [List.mem_append, List.mem_cons, or_comm]

/-- The keys of an `OrderedDict` built from raw pairs are the raw keys in
first-seen order. -/
theorem odOfPairs_keys (ps : List (String × Json)) :
    (odOfPairs ps).map Prod.fst = dedupFirst (ps.map Prod.fst) := by
  have h := foldl_odInsert_keys ps []
  simpa [odOfPairs, dedupFirst] using h

theorem lookupKey_eq_none_iff {acc : List (String × Json)} {k : String} :
    lookupKey acc k = none ↔ k ∉ acc.map Prod.fst := by
  induction acc with
  | nil => simp [lookupKey]
  | cons p ps ih =>
    simp only [lookupKey, List.map_cons, List.mem_cons]
    by_cases h : p.1 = k
    · simp [h]
    · rw [if_neg h, ih]
      constructor
      · intro hk hm
        rcases hm with hm | hm
        · exact h hm.symm
        · exact hk hm
      · intro hk hm
        exact hk (Or.inr hm)

theorem lookupKey_append_single {k k' : String} (v : Json) :
    ∀ acc : List (String × Json),
      lookupKey (acc ++ [(k, v)]) k' =
        match lookupKey acc k' with
        | some w => some w
        | none => if k = k' then some v else none := by
  intro acc
  induction acc with
  | nil => rfl
  | cons p ps ih =>
    simp only [List.cons_append, lookupKey]
    by_cases hpk : p.1 = k'
    · rw [if_pos hpk, if_pos hpk]
    · rw [if_neg hpk, if_neg hpk]
      exact ih

theorem lookupKey_map_replace {k : String} (v : Json) :
    ∀ ps : List (String × Json), k ∈ ps.map Prod.fst →
      lookupKey (ps.map (fun p => if p.1 = k then (k, v) else p)) k = some v := by
  intro ps
  induction ps with
  | nil => simp
  | cons p ps ih =>
    intro hmem
    simp only [List.map_cons]
    by_cases hpk : p.1 = k
    · rw [if_pos hpk]
      simp [lookupKey]
    · rw [if_neg hpk]
      simp only [lookupKey]
      rw [if_neg hpk]
      apply ih
      simp only [List.map_cons, List.mem_cons] at hmem
      rcases hmem with h | h
      · exact absurd h.symm hpk
      · exact h

theorem lookupKey_map_replace_other {k k' : String} (v : Json) (hne : k' ≠ k) :
    ∀ ps : List (String × Json),
      lookupKey (ps.map (fun p => if p.1 = k then (k, v) else p)) k' = lookupKey ps k' := by
  intro ps
  induction ps with
  | nil => rfl
  | cons p ps ih =>
    simp only [List.map_cons]
    by_cases hpk : p.1 = k
    · rw [if_pos hpk]
      simp only [lookupKey]
      rw [if_neg (fun h => hne h.symm), if_neg (by rw [hpk]; exact fun h => hne h.symm), ih]
    · rw [if_neg hpk]
      simp only [lookupKey]
      by_cases hpk' : p.1 = k'
      · rw [if_pos hpk', if_pos hpk']
      · rw [if_neg hpk', if_neg hpk', ih]

theorem any_key_eq_true_iff {acc : List (String × Json)} {k : String} :
    acc.any (fun p => p.1 = k) = true ↔ k ∈ acc.map Prod.fst := by
  simp only [List.any_eq_true, decide_eq_true_eq, List.mem_map]

theorem lookupKey_odInsert_self {k : String} (v : Json) :
    ∀ acc : List (String × Json), lookupKey (odInsert acc k v) k = some v := by
  intro acc
  unfold odInsert
  by_cases hmem : k ∈ acc.map Prod.fst
  · rw [if_pos (any_key_eq_true_iff.2 hmem)]
    exact lookupKey_map_replace v acc hmem
  · rw [if_neg (fun h => hmem (any_key_eq_true_iff.1 h))]
    rw [lookupKey_append_single, lookupKey_eq_none_iff.2 hmem]
    simp

theorem lookupKey_odInsert_other {k k' : String} (v : Json) (hne : k' ≠ k) :
    ∀ acc : List (String × Json), lookupKey (odInsert acc k v) k' = lookupKey acc k' := by
  intro acc
  unfold odInsert
  by_cases hmem : k ∈ acc.map Prod.fst
  · rw [if_pos (any_key_eq_true_iff.2 hmem)]
    exact lookupKey_map_replace_other v hne acc
  · rw [if_neg (fun h => hmem (any_key_eq_true_iff.1 h))]
    rw [lookupKey_append_single]
    cases hl : lookupKey acc k' with
    | some w => rfl
    | none => rw [if_neg (fun h => hne h.symm)]

/-- Reading a key of the folded `OrderedDict` returns the value of the key's
last occurrence among the raw pairs. -/
theorem foldl_odInsert_lookup (ps : List (String × Json)) :
    ∀ (acc : List (String × Json)) (k : String),
      lookupKey (ps.foldl (fun acc p => odInsert acc p.1 p.2) acc) k =
        match lastVal ps k with
        | some v => some v
        | none => lookupKey acc k := by
  induction ps with
  | nil => intro acc k; rfl
  | cons p ps ih =>
    intro acc k
    simp only [List.foldl_cons, lastVal]
    rw [ih]
    cases hlast : lastVal ps k with
    | some v => rfl
    | none =>
      by_cases hpk : p.1 = k
      · rw [if_pos hpk]
        subst hpk
        exact lookupKey_odInsert_self p.2 acc
      · rw [if_neg hpk]
        exact lookupKey_odInsert_other p.2 (fun h => hpk h.symm) acc

theorem odOfPairs_lookup (ps : List (String × Json)) (k : String) :
    lookupKey (odOfPairs ps) k = lastVal ps k := by
  rw [odOfPairs, foldl_odInsert_lookup]
  cases hlast : lastVal ps k with
  | some v => rfl
  | none => rfl

/-! ### `OrderedDict` key lists are duplicate-free -/

theorem keysNodup_iff {ks : List String} : keysNodup ks = true ↔ ks.Nodup := by
  induction ks with
  | nil => simp [keysNodup]
  | cons k ks ih =>
    simp only [keysNodup, Bool.and_eq_true, Bool.not_eq_true', List.nodup_cons, ih]
    constructor
    · rintro ⟨h1, h2⟩
      refine ⟨fun hm => ?_, h2⟩
      rw [contains_iff_mem_map.2 hm] at h1
      cases h1
    · rintro ⟨h1, h2⟩
      refine ⟨?_, h2⟩
      cases hc : ks.contains k with
      | false => rfl
      | true => exact absurd (contains_iff_mem_map.1 hc) h1

theorem odInsert_keys_nodup {acc : List (String × Json)} {k : String} (v : Json)
    (h : (acc.map Prod.fst).Nodup) : ((odInsert acc k v).map Prod.fst).Nodup := by
  by_cases hmem : k ∈ acc.map Prod.fst
  · rw [odInsert_keys_of_mem v hmem]; exact h
  · rw [odInsert_keys_of_not_mem v hmem]
    rw [List.nodup_append]
    exact ⟨h, List.nodup_singleton k, by simpa using hmem⟩

theorem odOfPairs_keys_nodup (ps : List (String × Json)) :
    ((odOfPairs ps).map Prod.fst).Nodup := by
  rw [odOfPairs]
  suffices h : ∀ acc : List (String × Json), (acc.map Prod.fst).Nodup →
      ((ps.foldl (fun acc p => odInsert acc p.1 p.2) acc).map Prod.fst).Nodup by
    exact h [] (by simp)
  induction ps with
  | nil => intro acc hacc; exact hacc
  | cons p ps ih =>
    intro acc hacc
    exact ih _ (odInsert_keys_nodup p.2 hacc)

theorem mem_odInsert {q : String × Json} {acc : List (String × Json)} {k : String} {v : Json}
    (h : q ∈ odInsert acc k v) : q ∈ acc ∨ q = (k, v) := by
  unfold odInsert at h
  split at h
  · obtain ⟨p, hp, hq⟩ := List.mem_map.1 h
    by_cases hpk : p.1 = k
    · rw [if_pos hpk] at hq; right; exact hq.symm
    · rw [if_neg hpk] at hq; left; rw [← hq]; exact hp
  · rcases List.mem_append.1 h with h | h
    · left; exact h
    · right; simpa using h

theorem mem_odOfPairs {q : String × Json} {ps : List (String × Json)}
    (h : q ∈ odOfPairs ps) : q ∈ ps := by
  rw [odOfPairs] at h
  suffices hgen : ∀ acc : List (String × Json),
      q ∈ ps.foldl (fun acc p => odInsert acc p.1 p.2) acc → q ∈ acc ∨ q ∈ ps by
    rcases hgen [] h with hc | hc
    · simp at hc
    · exact hc
  clear h
  induction ps with
  | nil => intro acc h; left; exact h
  | cons p ps ih =>
    intro acc h
    rcases ih _ h with hc | hc
    · rcases mem_odInsert hc with hc' | hc'
      · left; exact hc'
      · right; rw [hc']; simp
    · right; exact List.mem_cons_of_mem _ hc

/-- Folding already duplicate-free pairs through `odInsert` changes nothing. -/
theorem odOfPairs_of_nodup {ps : List (String × Json)}
    (h : (ps.map Prod.fst).Nodup) : odOfPairs ps = ps := by
  rw [odOfPairs]
  suffices hgen : ∀ acc : List (String × Json),
      ((acc ++ ps).map Prod.fst).Nodup →
      ps.foldl (fun acc p => odInsert acc p.1 p.2) acc = acc ++ ps by
    simpa using hgen [] (by simpa using h)
  clear h
  induction ps with
  | nil => intro acc _; simp
  | cons p ps ih =>
    intro acc hacc
    simp only [List.foldl_cons]
    have hnotmem : p.1 ∉ acc.map Prod.fst := by
      intro hmem
      rw [List.map_append] at hacc
      have hd := List.disjoint_of_nodup_append hacc
      exact hd hmem (by simp)
    have hstep : odInsert acc p.1 p.2 = acc ++ [p] := by
      unfold odInsert
      rw [if_neg (fun h => hnotmem (any_key_eq_true_iff.1 h))]
    rw [hstep, ih (acc ++ [p])]
    · simp
    · have : (acc ++ [p]) ++ ps = acc ++ (p :: ps) := by simp
      rw [this]
      exact hacc

/-! ### `toOD` preserves structure and is the identity on duplicate-free
documents -/

theorem toOD_nodup : ∀ d : Json, nodupKeys (toOD d) = true := by
  apply Json.indOn
  · rfl
  · intro b; cases b <;> rfl
  · intro n; rfl
  · intro s; rfl
  · intro l ih
    rw [toOD, nodupKeys, toODList_eq_map, nodupKeysList_eq_all, List.all_eq_true]
    intro x hx
    obtain ⟨y, hy, hxy⟩ := List.mem_map.1 hx
    rw [← hxy]
    exact ih y hy
  · intro ps ih
    rw [toOD, nodupKeys, toODMembers_eq_map, Bool.and_eq_true]
    constructor
    · exact keysNodup_iff.2 (odOfPairs_keys_nodup _)
    · rw [nodupKeysMembers_eq_all, List.all_eq_true]
      intro q hq
      have hq' := mem_odOfPairs hq
      obtain ⟨p, hp, hpq⟩ := List.mem_map.1 hq'
      have : q.2 = toOD p.2 := by rw [← hpq]
      rw [this]
      exact ih p hp

theorem toOD_id_of_nodup : ∀ d : Json, nodupKeys d = true → toOD d = d := by
  apply Json.indOn
  · intro _; rfl
  · intro b _; cases b <;> rfl
  · intro n _; rfl
  · intro s _; rfl
  · intro l ih h
    rw [toOD, toODList_eq_map]
    rw [nodupKeys, nodupKeysList_eq_all, List.all_eq_true] at h
    congr 1
    conv_rhs => rw [← List.map_id l]
    exact List.map_congr_left (fun x hx => ih x hx (h x hx))
  · intro ps ih h
    rw [nodupKeys, Bool.and_eq_true, nodupKeysMembers_eq_all, List.all_eq_true] at h
    rw [toOD, toODMembers_eq_map]
    have hmap : ps.map (fun p => (p.1, toOD p.2)) = ps := by
      have := List.map_congr_left (l := ps) (f := fun p => (p.1, toOD p.2)) (g := id) ?_
      · simpa using this
      · intro p hp
        have := ih p hp (h.2 p hp)
        simp [this]
    rw [hmap, odOfPairs_of_nodup (keysNodup_iff.1 h.1)]

theorem toOD_idem (d : Json) : toOD (toOD d) = toOD d :=
  toOD_id_of_nodup (toOD d) (toOD_nodup d)

/-! ## Character-level facts -/

theorem toNat_ofNat_valid {n : Nat} (h : n.isValidChar) : (Char.ofNat n).toNat = n := by
  rw [Char.ofNat, dif_pos h]
  simp [Char.ofNatAux, Char.toNat, UInt32.toNat, BitVec.toNat_ofNatLt]

theorem char_valid_cases (c : Char) :
    c.toNat < 0xd800 ∨ (0xdfff < c.toNat ∧ c.toNat < 0x110000) := by
  have h := c.valid
  rcases h with h | h
  · left; exact_mod_cast h
  · right; exact ⟨by exact_mod_cast h.1, by exact_mod_cast h.2⟩

theorem char_eq_of_toNat_eq {a b : Char} (h : a.toNat = b.toNat) : a = b := by
  have := congrArg Char.ofNat h
  rwa [Char.ofNat_toNat, Char.ofNat_toNat] at this

theorem isDigit_iff_toNat {c : Char} : c.isDigit = true ↔ 48 ≤ c.toNat ∧ c.toNat ≤ 57 := by
  simp only [Char.isDigit]
  constructor
  · intro h
    have h1 := Bool.and_elim_left h
    have h2 := Bool.and_elim_right h
    simp only [decide_eq_true_eq] at h1 h2
    exact ⟨h1, h2⟩
  · rintro ⟨h1, h2⟩
    simp only [Bool.and_eq_true, decide_eq_true_eq]
    exact ⟨h1, h2⟩

/-! ## Whitespace lemmas -/

theorem skipWs_cons_not_ws {c : Char} (h : isWs c = false) (cs : List Char) :
    skipWs (c :: cs) = c :: cs := by
  simp [skipWs, h]

theorem skipWs_ws_append {ws : List Char} (h : ∀ c ∈ ws, isWs c = true) (cs : List Char) :
    skipWs (ws ++ cs) = skipWs cs := by
  induction ws with
  | nil => rfl
  | cons w ws ih =>
    simp only [List.cons_append, skipWs, h w (by simp), if_true]
    exact ih (fun c hc => h c (by simp [hc]))

theorem newlineIndent_ws {lvl : Nat} : ∀ c ∈ newlineIndent lvl, isWs c = true := by
  intro c hc
  rcases List.mem_cons.1 hc with h | h
  · rw [h]; rfl
  · rw [List.eq_of_mem_replicate h]; rfl

theorem skipWs_newlineIndent (lvl : Nat) (cs : List Char) :
    skipWs (newlineIndent lvl ++ cs) = skipWs cs :=
  skipWs_ws_append newlineIndent_ws cs

/-! ## Decimal digits -/

theorem decDigit_toNat (n : Nat) : (decDigit n).toNat = 48 + n % 10 := by
  rw [decDigit]
  have h48 : ('0' : Char).toNat = 48 := rfl
  rw [h48]
  exact toNat_ofNat_valid (Or.inl (by omega))

theorem decDigit_isDigit (n : Nat) : (decDigit n).isDigit = true := by
  rw [isDigit_iff_toNat, decDigit_toNat]
  omega

theorem decDigit_not_ws (n : Nat) : isWs (decDigit n) = false := by
  have h := decDigit_toNat n
  rw [isWs]
  simp only [Bool.or_eq_false_iff, decide_eq_false_iff_not]
  refine ⟨⟨⟨?_, ?_⟩, ?_⟩, ?_⟩ <;>
  · intro he
    have ht := congrArg Char.toNat he
    rw [h] at ht
    simp only [show (' ' : Char).toNat = 32 from rfl, show ('\t' : Char).toNat = 9 from rfl,
      show ('\n' : Char).toNat = 10 from rfl, show ('\r' : Char).toNat = 13 from rfl] at ht
    omega

theorem natCharsAux_eq (n : Nat) (acc : List Char) :
    natCharsAux n acc =
      if n < 10 then decDigit n :: acc
      else natCharsAux (n / 10) (decDigit (n % 10) :: acc) := by
  rw [natCharsAux]

theorem natCharsAux_acc (n : Nat) : ∀ acc : List Char,
    natCharsAux n acc = natChars n ++ acc := by
  induction n using Nat.strong_induction_on with
  | _ n ih =>
    intro acc
    rw [natChars, natCharsAux_eq, natCharsAux_eq n []]
    by_cases h : n < 10
    · simp [h]
    · rw [if_neg h, if_neg h]
      have hlt : n / 10 < n := Nat.div_lt_self (by omega) (by omega)
      rw [ih _ hlt, ih _ hlt (decDigit (n % 10) :: [])]
      simp

theorem natChars_small {n : Nat} (h : n < 10) : natChars n = [decDigit n] := by
  rw [natChars, natCharsAux_eq, if_pos h]

theorem natChars_big {n : Nat} (h : ¬ n < 10) :
    natChars n = natChars (n / 10) ++ [decDigit (n % 10)] := by
  rw [natChars, natCharsAux_eq, if_neg h, natCharsAux_acc]

theorem natChars_all_digits (n : Nat) : ∀ c ∈ natChars n, c.isDigit = true := by
  induction n using Nat.strong_induction_on with
  | _ n ih =>
    by_cases h : n < 10
    · rw [natChars_small h]
      intro c hc
      rw [List.eq_of_mem_singleton hc]
      exact decDigit_isDigit n
    · rw [natChars_big h]
      intro c hc
      rcases List.mem_append.1 hc with hc | hc
      · exact ih _ (Nat.div_lt_self (by omega) (by omega)) c hc
      · rw [List.eq_of_mem_singleton hc]
        exact decDigit_isDigit _

theorem digitsVal_append_single (ds : List Char) (c : Char) :
    digitsVal (ds ++ [c]) = 10 * digitsVal ds + (c.toNat - '0'.toNat) := by
  rw [digitsVal, digitsVal, List.foldl_append]
  rfl

theorem digitsVal_natChars (n : Nat) : digitsVal (natChars n) = n := by
  induction n using Nat.strong_induction_on with
  | _ n ih =>
    by_cases h : n < 10
    · rw [natChars_small h, digitsVal]
      simp only [List.foldl_cons, List.foldl_nil]
      rw [decDigit_toNat]
      have h48 : ('0' : Char).toNat = 48 := rfl
      rw [h48]
      omega
    · rw [natChars_big h, digitsVal_append_single,
        ih _ (Nat.div_lt_self (by omega) (by omega)), decDigit_toNat]
      have h48 : ('0' : Char).toNat = 48 := rfl
      rw [h48]
      omega

theorem natChars_head (n : Nat) :
    ∃ c t, natChars n = c :: t ∧ c.isDigit = true ∧ (n ≠ 0 → c ≠ '0') := by
  induction n using Nat.strong_induction_on with
  | _ n ih =>
    by_cases h : n < 10
    · refine ⟨decDigit n, [], natChars_small h, decDigit_isDigit n, ?_⟩
      intro hn h0
      have ht := congrArg Char.toNat h0
      rw [decDigit_toNat] at ht
      have h48 : ('0' : Char).toNat = 48 := rfl
      rw [h48] at ht
      omega
    · obtain ⟨c, t, heq, hdig, hne⟩ := ih (n / 10) (Nat.div_lt_self (by omega) (by omega))
      refine ⟨c, t ++ [decDigit (n % 10)], ?_, hdig, ?_⟩
      · rw [natChars_big h, heq]
        simp
      · intro _
        exact hne (by omega)

/-! ## Number scanning round trip -/

theorem headNotDigit_nil : headNotDigit [] := by
  intro c t h
  cases h

theorem headNotDigit_cons {c : Char} (h : c.isDigit = false) (t : List Char) :
    headNotDigit (c :: t) := by
  intro c' t' he
  cases he
  exact h

theorem takeDigits_append {ds rest : List Char} (hd : ∀ c ∈ ds, c.isDigit = true)
    (hr : headNotDigit rest) : takeDigits (ds ++ rest) = (ds, rest) := by
  induction ds with
  | nil =>
    cases rest with
    | nil => rfl
    | cons c t =>
      simp only [List.nil_append, takeDigits]
      rw [if_neg]
      intro hdig
      rw [hr c t rfl] at hdig
      cases hdig
  | cons d ds ih =>
    simp only [List.cons_append, takeDigits]
    rw [if_pos (hd d (by simp))]
    have ihr := ih (fun c hc => hd c (by simp [hc]))
    show (d :: (takeDigits (ds ++ rest)).1, (takeDigits (ds ++ rest)).2) = (d :: ds, rest)
    rw [ihr]

theorem parseUInt_natChars (n : Nat) (rest : List Char) (hr : headNotDigit rest) :
    parseUInt (natChars n ++ rest) = some (n, rest) := by
  by_cases hz : n = 0
  · subst hz
    rw [natChars_small (by omega)]
    have h0 : decDigit 0 = '0' := rfl
    rw [h0]
    simp [parseUInt]
  · obtain ⟨c, t, heq, hdig, hne⟩ := natChars_head n
    have hc0 : c ≠ '0' := hne hz
    have ht : ∀ c' ∈ t, c'.isDigit = true := by
      intro c' hc'
      exact natChars_all_digits n c' (by rw [heq]; simp [hc'])
    rw [heq]
    simp only [List.cons_append, parseUInt]
    rw [if_neg hc0, if_pos hdig]
    rw [takeDigits_append ht hr]
    have hval : digitsVal (c :: t) = n := by
      rw [← heq]
      exact digitsVal_natChars n
    rw [hval]

theorem digit_ne_minus {c : Char} (h : c.isDigit = true) : c ≠ '-' := by
  intro he
  rw [he] at h
  cases h

theorem parseNumber_intChars (m : Int) (rest : List Char) (hr : headNotDigit rest) :
    parseNumber (intChars m ++ rest) = some (m, rest) := by
  cases m with
  | ofNat n =>
    rw [intChars]
    obtain ⟨c, t, heq, hdig, _⟩ := natChars_head n
    rw [heq]
    simp only [List.cons_append, parseNumber]
    rw [if_neg (digit_ne_minus hdig), ← List.cons_append, ← heq,
      parseUInt_natChars n rest hr]
    rfl
  | negSucc k =>
    show parseNumber (('-' :: natChars (k + 1)) ++ rest) = some (Int.negSucc k, rest)
    rw [List.cons_append]
    simp only [parseNumber]
    rw [if_pos trivial, parseUInt_natChars (k + 1) rest hr]
    show some (-((k + 1 : Nat) : Int), rest) = some (Int.negSucc k, rest)
    congr 1

/-! ## Hex escape round trip -/

theorem hexVal?_hexDigit {m : Nat} (h : m < 16) : hexVal? (hexDigit m) = some m := by
  interval_cases m <;> decide

theorem hex4Val_hex4 {n : Nat} (h : n < 65536) :
    hex4Val (hexDigit (n / 4096 % 16)) (hexDigit (n / 256 % 16))
      (hexDigit (n / 16 % 16)) (hexDigit (n % 16)) = some n := by
  rw [hex4Val, hexVal?_hexDigit (Nat.mod_lt _ (by omega)),
    hexVal?_hexDigit (Nat.mod_lt _ (by omega)), hexVal?_hexDigit (Nat.mod_lt _ (by omega)),
    hexVal?_hexDigit (Nat.mod_lt _ (by omega))]
  show some ((((n / 4096 % 16) * 16 + n / 256 % 16) * 16 + n / 16 % 16) * 16 + n % 16) = some n
  congr 1
  omega

/-! ## String escape round trip -/

theorem escapeChar_plain {c : Char} (h1 : c ≠ '"') (h2 : c ≠ '\\')
    (h8 : 0x20 ≤ c.toNat ∧ c.toNat ≤ 0x7e) : escapeChar c = [c] := by
  rw [escapeChar, if_neg h1, if_neg h2,
    if_neg (fun he => absurd h8 (by rw [he]; decide)),
    if_neg (fun he => absurd h8 (by rw [he]; decide)),
    if_neg (fun he => absurd h8 (by rw [he]; decide)),
    if_neg (fun he => absurd h8 (by rw [he]; decide)),
    if_neg (fun he => absurd h8 (by rw [he]; decide)),
    if_pos h8]

theorem escapeChar_bmp {c : Char} (h1 : c ≠ '"') (h2 : c ≠ '\\')
    (h3 : c ≠ Char.ofNat 8) (h4 : c ≠ Char.ofNat 12) (h5 : c ≠ '\n') (h6 : c ≠ '\r')
    (h7 : c ≠ '\t') (h8 : ¬ (0x20 ≤ c.toNat ∧ c.toNat ≤ 0x7e)) (h9 : c.toNat < 0x10000) :
    escapeChar c = '\\' :: 'u' :: hex4 c.toNat := by
  rw [escapeChar, if_neg h1, if_neg h2, if_neg h3, if_neg h4, if_neg h5, if_neg h6,
    if_neg h7, if_neg h8, if_pos h9]

theorem escapeChar_astral {c : Char} (ha : 0x10000 ≤ c.toNat) :
    escapeChar c =
      '\\' :: 'u' :: hex4 (0xd800 + (c.toNat - 0x10000) / 0x400) ++
        ('\\' :: 'u' :: hex4 (0xdc00 + (c.toNat - 0x10000) % 0x400)) := by
  rw [escapeChar, if_neg (fun he => absurd ha (by rw [he]; decide)),
    if_neg (fun he => absurd ha (by rw [he]; decide)),
    if_neg (fun he => absurd ha (by rw [he]; decide)),
    if_neg (fun he => absurd ha (by rw [he]; decide)),
    if_neg (fun he => absurd ha (by rw [he]; decide)),
    if_neg (fun he => absurd ha (by rw [he]; decide)),
    if_neg (fun he => absurd ha (by rw [he]; decide)),
    if_neg (by omega), if_neg (by omega)]

theorem parseHex4_hex4 {n : Nat} (h : n < 65536) (rest : List Char) :
    parseHex4 (hex4 n ++ rest) = some (n, rest) := by
  rw [hex4]
  simp [parseHex4, hex4Val_hex4 h]

/-- Decoding undoes the `\uXXXX` serialization of a BMP character. -/
theorem scanUnicode_bmp {c : Char} (h9 : c.toNat < 0x10000) (tail : List Char) :
    scanUnicode (hex4 c.toNat ++ tail) = some (c, tail) := by
  have hns1 : ¬ (0xd800 ≤ c.toNat ∧ c.toNat ≤ 0xdbff) := by
    rcases char_valid_cases c with hv | hv <;> omega
  have hns2 : ¬ (0xdc00 ≤ c.toNat ∧ c.toNat ≤ 0xdfff) := by
    rcases char_valid_cases c with hv | hv <;> omega
  simp [scanUnicode, parseHex4_hex4 h9, hns1, hns2, Char.ofNat_toNat]

/-- Decoding undoes the surrogate-pair serialization of an astral character. -/
theorem scanUnicode_astral {c : Char} (h9 : ¬ c.toNat < 0x10000) (tail : List Char) :
    scanUnicode (hex4 (0xd800 + (c.toNat - 0x10000) / 0x400) ++
        ('\\' :: 'u' :: (hex4 (0xdc00 + (c.toNat - 0x10000) % 0x400) ++ tail))) =
      some (c, tail) := by
  have hlt : c.toNat < 0x110000 := by
    have := char_valid_cases c
    omega
  have hx1 := parseHex4_hex4
    (show 0xd800 + (c.toNat - 0x10000) / 0x400 < 65536 from by omega)
    ('\\' :: 'u' :: (hex4 (0xdc00 + (c.toNat - 0x10000) % 0x400) ++ tail))
  have hx2 := parseHex4_hex4
    (show 0xdc00 + (c.toNat - 0x10000) % 0x400 < 65536 from by omega) tail
  have hs1 : 0xd800 ≤ 0xd800 + (c.toNat - 0x10000) / 0x400 ∧
      0xd800 + (c.toNat - 0x10000) / 0x400 ≤ 0xdbff := by omega
  have hs2 : 0xdc00 ≤ 0xdc00 + (c.toNat - 0x10000) % 0x400 ∧
      0xdc00 + (c.toNat - 0x10000) % 0x400 ≤ 0xdfff := by omega
  have hcomb : combineSurrogate (0xd800 + (c.toNat - 0x10000) / 0x400)
      ('\\' :: 'u' :: (hex4 (0xdc00 + (c.toNat - 0x10000) % 0x400) ++ tail)) =
      some (c, tail) := by
    rw [combineSurrogate, if_pos ⟨rfl, rfl⟩, hx2, Option.some_bind, if_pos hs2]
    have harith2 :
        0x10000 + (0xd800 + (c.toNat - 0x10000) / 0x400 - 0xd800) * 0x400 +
          (0xdc00 + (c.toNat - 0x10000) % 0x400 - 0xdc00) = c.toNat := by
      omega
    rw [harith2, Char.ofNat_toNat]
  rw [scanUnicode, hx1, Option.some_bind, if_pos hs1, hcomb]

/-- One scanning step undoes the serialization of one character. -/
theorem scanStep_escapeChar (c : Char) (tail : List Char) :
    scanStep (escapeChar c ++ tail) = some (some c, tail) := by
  by_cases h1 : c = '"'
  · subst h1
    rw [show escapeChar '"' = ['\\', '"'] from rfl]
    simp [scanStep, escDecode]
  · by_cases h2 : c = '\\'
    · subst h2
      rw [show escapeChar '\\' = ['\\', '\\'] from rfl]
      simp [scanStep, escDecode]
    · by_cases h3 : c = Char.ofNat 8
      · subst h3
        rw [show escapeChar (Char.ofNat 8) = ['\\', 'b'] from rfl]
        simp [scanStep, escDecode]
      · by_cases h4 : c = Char.ofNat 12
        · subst h4
          rw [show escapeChar (Char.ofNat 12) = ['\\', 'f'] from rfl]
          simp [scanStep, escDecode]
        · by_cases h5 : c = '\n'
          · subst h5
            rw [show escapeChar '\n' = ['\\', 'n'] from rfl]
            simp [scanStep, escDecode]
          · by_cases h6 : c = '\r'
            · subst h6
              rw [show escapeChar '\r' = ['\\', 'r'] from rfl]
              simp [scanStep, escDecode]
            · by_cases h7 : c = '\t'
              · subst h7
                rw [show escapeChar '\t' = ['\\', 't'] from rfl]
                simp [scanStep, escDecode]
              · by_cases h8 : 0x20 ≤ c.toNat ∧ c.toNat ≤ 0x7e
                · rw [escapeChar_plain h1 h2 h8, List.singleton_append]
                  simp [scanStep, h1, h2, show ¬ c.toNat < 0x20 from by omega]
                · by_cases h9 : c.toNat < 0x10000
                  · rw [escapeChar_bmp h1 h2 h3 h4 h5 h6 h7 h8 h9]
                    simp [scanStep, scanUnicode_bmp h9 tail]
                  · rw [escapeChar_astral (by omega)]
                    simp only [List.cons_append, List.append_assoc]
                    simp [scanStep, scanUnicode_astral h9 tail]

/-- Scanning the escaped body of a string recovers exactly the original
characters and stops at the closing quote (any fuel beyond the character count
is enough, because every character costs one step and the quote one more). -/
theorem parseStringBody_escape : ∀ (s : List Char) (fuel : Nat) (rest : List Char),
    s.length < fuel →
    parseStringBody fuel (escapeChars s ++ ('"' :: rest)) = some (s, rest) := by
  intro s
  induction s with
  | nil =>
    intro fuel rest h
    cases fuel with
    | zero => omega
    | succ f => simp [escapeChars, parseStringBody, scanStep]
  | cons c s ih =>
    intro fuel rest h
    cases fuel with
    | zero => omega
    | succ f =>
    have ihr := ih f rest (by simp at h; omega)
    show parseStringBody (f + 1) ((escapeChar c ++ escapeChars s) ++ ('"' :: rest)) =
      some (c :: s, rest)
    rw [List.append_assoc]
    simp [parseStringBody, scanStep_escapeChar, ihr]

/-- The number of serialized characters dominates the number of source
characters, so the wrapper's `length + 1` fuel is always sufficient. -/
theorem length_le_escapeChars (s : List Char) : s.length ≤ (escapeChars s).length := by
  induction s with
  | nil => simp [escapeChars]
  | cons c s ih =>
    rw [escapeChars, List.length_append, List.length_cons]
    have hc : 1 ≤ (escapeChar c).length := by
      rw [escapeChar]
      repeat' split
      all_goals simp
    omega

theorem parseString_escape (s rest : List Char) :
    parseString (escapeChars s ++ ('"' :: rest)) = some (s, rest) := by
  rw [parseString]
  apply parseStringBody_escape
  have h := length_le_escapeChars s
  rw [List.length_append]
  omega

/-! ## Value scanning round trip -/

theorem digit_head_facts {c : Char} (h : c = '-' ∨ c.isDigit = true) :
    isWs c = false ∧ c ≠ '{' ∧ c ≠ '[' ∧ c ≠ '"' ∧ c ≠ 't' ∧ c ≠ 'f' ∧ c ≠ 'n' ∧
      c ≠ ']' ∧ c ≠ '}' ∧ c ≠ ',' ∧ c ≠ ':' := by
  rcases h with h | h
  · subst h
    refine ⟨rfl, ?_, ?_, ?_, ?_, ?_, ?_, ?_, ?_, ?_, ?_⟩ <;> decide
  · have hb := isDigit_iff_toNat.1 h
    have hws : isWs c = false := by
      rw [isWs]
      simp only [Bool.or_eq_false_iff, decide_eq_false_iff_not]
      refine ⟨⟨⟨?_, ?_⟩, ?_⟩, ?_⟩ <;>
      · intro he
        rw [he] at hb
        revert hb
        decide
    refine ⟨hws, ?_, ?_, ?_, ?_, ?_, ?_, ?_, ?_, ?_, ?_⟩ <;>
    · intro he
      rw [he] at hb
      revert hb
      decide

theorem intChars_head (m : Int) :
    ∃ c t, intChars m = c :: t ∧ (c = '-' ∨ c.isDigit = true) := by
  cases m with
  | ofNat n =>
    obtain ⟨c, t, heq, hdig, _⟩ := natChars_head n
    exact ⟨c, t, heq, Or.inr hdig⟩
  | negSucc k =>
    exact ⟨'-', natChars (k + 1), rfl, Or.inl rfl⟩

/-- Every serialized value starts with a character that is not whitespace and
not one of the separators or closers the surrounding grammar looks for. -/
theorem dumpVal_head (lvl : Nat) (d : Json) :
    ∃ c t, dumpVal lvl d = c :: t ∧ isWs c = false ∧ c ≠ ']' ∧ c ≠ '}' ∧ c ≠ ',' := by
  cases d with
  | null => exact ⟨'n', _, rfl, by decide, by decide, by decide, by decide⟩
  | bool b =>
    cases b with
    | true => exact ⟨'t', _, rfl, by decide, by decide, by decide, by decide⟩
    | false => exact ⟨'f', _, rfl, by decide, by decide, by decide, by decide⟩
  | num n =>
    obtain ⟨c, t, heq, hd⟩ := intChars_head n
    obtain ⟨hws, _, _, _, _, _, _, h1, h2, h3, _⟩ := digit_head_facts hd
    exact ⟨c, t, heq, hws, h1, h2, h3⟩
  | str s => exact ⟨'"', _, rfl, by decide, by decide, by decide, by decide⟩
  | arr l =>
    cases l with
    | nil => exact ⟨'[', _, rfl, by decide, by decide, by decide, by decide⟩
    | cons x xs =>
      refine ⟨'[', newlineIndent (lvl + 1) ++
        (dumpVal (lvl + 1) x ++ (dumpElems (lvl + 1) xs ++ (newlineIndent lvl ++ [']']))),
        ?_, by decide, by decide, by decide, by decide⟩
      rw [dumpVal]
  | obj ps =>
    cases ps with
    | nil => exact ⟨'{', _, rfl, by decide, by decide, by decide, by decide⟩
    | cons p ps =>
      refine ⟨'{', newlineIndent (lvl + 1) ++
        (dumpMember (lvl + 1) p ++ (dumpMembers (lvl + 1) ps ++ (newlineIndent lvl ++ ['}']))),
        ?_, by decide, by decide, by decide, by decide⟩
      rw [dumpVal]

/-- Skipping whitespace stops right at a serialized value. -/
theorem skipWs_dump (lvl : Nat) (d : Json) (tail : List Char) :
    skipWs (dumpVal lvl d ++ tail) = dumpVal lvl d ++ tail := by
  obtain ⟨c, t, heq, hws, _, _, _⟩ := dumpVal_head lvl d
  rw [heq, List.cons_append, skipWs_cons_not_ws hws]

/-- Scanning the serialized elements of a nonempty array consumes them and the
closing bracket. -/
theorem rt_elems : ∀ (xs : List Json) (x : Json), RTV x → (∀ y ∈ xs, RTV y) →
    ∀ fuel lvl lvl' cs rest, weightElems (x :: xs) ≤ fuel →
    skipWs cs = dumpVal lvl x ++ (dumpElems lvl xs ++ (newlineIndent lvl' ++ (']' :: rest))) →
    parseElements fuel cs = some (x :: xs, rest) := by
  intro xs
  induction xs with
  | nil =>
    intro x hx _ fuel lvl lvl' cs rest hfuel hcs
    rw [weightElems, weightElems] at hfuel
    cases fuel with
    | zero => omega
    | succ f =>
    rw [dumpElems, List.nil_append] at hcs
    have hx' := hx f lvl cs (newlineIndent lvl' ++ (']' :: rest)) (by omega) hcs
      (by rw [newlineIndent, List.cons_append]; exact headNotDigit_cons (by decide) _)
    simp only [parseElements]
    rw [hx']
    simp [skipWs_newlineIndent, skipWs_cons_not_ws (show isWs ']' = false from by decide)]
  | cons y ys ih =>
    intro x hx hys fuel lvl lvl' cs rest hfuel hcs
    rw [weightElems] at hfuel
    cases fuel with
    | zero => omega
    | succ f =>
    rw [dumpElems] at hcs
    have hx' := hx f lvl cs
      (',' :: (newlineIndent lvl ++ (dumpVal lvl y ++ dumpElems lvl ys) ++
        (newlineIndent lvl' ++ (']' :: rest))))
      (by omega)
      (by rw [hcs]; simp [List.append_assoc])
      (headNotDigit_cons (by decide) _)
    have hr2 : skipWs (newlineIndent lvl ++ (dumpVal lvl y ++ dumpElems lvl ys) ++
        (newlineIndent lvl' ++ (']' :: rest))) =
        dumpVal lvl y ++ (dumpElems lvl ys ++ (newlineIndent lvl' ++ (']' :: rest))) := by
      rw [List.append_assoc, skipWs_newlineIndent, List.append_assoc, skipWs_dump]
    have ihy := ih y (hys y (by simp)) (fun z hz => hys z (by simp [hz]))
      f lvl lvl' _ rest (by omega) hr2
    simp only [parseElements]
    rw [hx']
    simp [skipWs_cons_not_ws (show isWs ',' = false from by decide)]
    simp only [List.append_assoc] at ihy
    exact ihy

/-- Scanning the serialized members of a nonempty object consumes them and the
closing brace. -/
theorem rt_members : ∀ (ps : List (String × Json)) (p : String × Json), RTV p.2 →
    (∀ q ∈ ps, RTV q.2) →
    ∀ fuel lvl lvl' cs rest, weightMembers (p :: ps) ≤ fuel →
    skipWs cs = dumpMember lvl p ++ (dumpMembers lvl ps ++ (newlineIndent lvl' ++ ('}' :: rest))) →
    parseMembers fuel cs = some (p :: ps, rest) := by
  intro ps
  induction ps with
  | nil =>
    intro p hp _ fuel lvl lvl' cs rest hfuel hcs
    rw [weightMembers, weightMembers] at hfuel
    cases fuel with
    | zero => omega
    | succ f =>
    rw [dumpMembers, List.nil_append, dumpMember, dumpString] at hcs
    simp only [List.cons_append, List.append_assoc, List.nil_append] at hcs
    have hps := parseString_escape p.1.data
      (':' :: ' ' :: (dumpVal lvl p.2 ++ (newlineIndent lvl' ++ ('}' :: rest))))
    have hp' := hp f lvl (' ' :: (dumpVal lvl p.2 ++ (newlineIndent lvl' ++ ('}' :: rest))))
      (newlineIndent lvl' ++ ('}' :: rest)) (by omega)
      (by rw [show skipWs (' ' :: (dumpVal lvl p.2 ++ (newlineIndent lvl' ++ ('}' :: rest)))) =
            skipWs (dumpVal lvl p.2 ++ (newlineIndent lvl' ++ ('}' :: rest))) from by
              simp [skipWs, isWs], skipWs_dump])
      (by rw [newlineIndent, List.cons_append]; exact headNotDigit_cons (by decide) _)
    simp only [parseMembers]
    rw [hcs]
    simp [hps, hp', skipWs_newlineIndent,
      skipWs_cons_not_ws (show isWs ':' = false from by decide),
      skipWs_cons_not_ws (show isWs '}' = false from by decide)]
  | cons q qs ih =>
    intro p hp hqs fuel lvl lvl' cs rest hfuel hcs
    rw [weightMembers] at hfuel
    cases fuel with
    | zero => omega
    | succ f =>
    rw [dumpMembers, dumpMember, dumpString] at hcs
    simp only [List.cons_append, List.append_assoc, List.nil_append] at hcs
    have hps := parseString_escape p.1.data
      (':' :: ' ' :: (dumpVal lvl p.2 ++
        (',' :: (newlineIndent lvl ++ (dumpMember lvl q ++ (dumpMembers lvl qs ++
          (newlineIndent lvl' ++ ('}' :: rest))))))))
    have hp' := hp f lvl
      (' ' :: (dumpVal lvl p.2 ++
        (',' :: (newlineIndent lvl ++ (dumpMember lvl q ++ (dumpMembers lvl qs ++
          (newlineIndent lvl' ++ ('}' :: rest))))))))
      (',' :: (newlineIndent lvl ++ (dumpMember lvl q ++ (dumpMembers lvl qs ++
        (newlineIndent lvl' ++ ('}' :: rest))))))
      (by omega)
      (by rw [show ∀ z : List Char, skipWs (' ' :: z) = skipWs z from fun z => by
            simp [skipWs, isWs], skipWs_dump])
      (headNotDigit_cons (by decide) _)
    have hr2 : skipWs (newlineIndent lvl ++ (dumpMember lvl q ++ (dumpMembers lvl qs ++
        (newlineIndent lvl' ++ ('}' :: rest))))) =
        dumpMember lvl q ++ (dumpMembers lvl qs ++ (newlineIndent lvl' ++ ('}' :: rest))) := by
      rw [skipWs_newlineIndent]
      rw [dumpMember, dumpString]
      simp only [List.cons_append, List.append_assoc]
      rw [skipWs_cons_not_ws (by decide)]
    have ihq := ih q (hqs q (by simp)) (fun z hz => hqs z (by simp [hz]))
      f lvl lvl' _ rest (by omega) hr2
    simp only [parseMembers]
    rw [hcs]
    simp [hps, hp', skipWs_cons_not_ws (show isWs ':' = false from by decide),
      skipWs_cons_not_ws (show isWs ',' = false from by decide)]
    simp only [List.append_assoc] at ihq
    exact ihq

/-- Every document round-trips: scanning its serialization (under whitespace
padding, with enough fuel, at any indent level) returns it unchanged. -/
theorem rt_value : ∀ d : Json, RTV d := by
  apply Json.indOn
  · intro fuel lvl cs rest hfuel hcs hrest
    cases fuel with
    | zero => rw [weight] at hfuel; omega
    | succ f =>
    rw [dumpVal] at hcs
    simp only [parseValue]
    rw [hcs]
    simp
  · intro b fuel lvl cs rest hfuel hcs hrest
    cases fuel with
    | zero => rw [weight] at hfuel; omega
    | succ f =>
    cases b with
    | true =>
      rw [dumpVal] at hcs
      simp only [parseValue]
      rw [hcs]
      simp
    | false =>
      rw [dumpVal] at hcs
      simp only [parseValue]
      rw [hcs]
      simp
  · intro n fuel lvl cs rest hfuel hcs hrest
    cases fuel with
    | zero => rw [weight] at hfuel; omega
    | succ f =>
    rw [dumpVal] at hcs
    obtain ⟨c, t, heq, hd⟩ := intChars_head n
    obtain ⟨hws, hb1, hb2, hb3, hb4, hb5, hb6, _, _, _, _⟩ := digit_head_facts hd
    rw [heq, List.cons_append] at hcs
    simp only [parseValue]
    rw [hcs]
    simp only [hb1, hb2, hb3, hb4, hb5, hb6, if_neg, if_false]
    rw [if_pos hd, ← List.cons_append, ← heq, parseNumber_intChars n rest hrest]
    rfl
  · intro s fuel lvl cs rest hfuel hcs hrest
    cases fuel with
    | zero => rw [weight] at hfuel; omega
    | succ f =>
    rw [dumpVal, dumpString, List.cons_append] at hcs
    simp only [parseValue]
    rw [hcs]
    simp only [List.append_assoc, List.singleton_append]
    norm_num
    rw [parseString, parseStringBody_escape]
    · rfl
    · rw [List.length_append]
      have h1 := length_le_escapeChars s.data
      have h2 : s.length = s.data.length := rfl
      simp
      omega
  · intro l ihl
    cases l with
    | nil =>
      intro fuel lvl cs rest hfuel hcs hrest
      cases fuel with
      | zero => rw [weight] at hfuel; omega
      | succ f =>
      rw [dumpVal, List.cons_append, List.cons_append] at hcs
      simp only [parseValue]
      rw [hcs]
      simp [skipWs_cons_not_ws (show isWs ']' = false from by decide)]
    | cons x xs =>
      intro fuel lvl cs rest hfuel hcs hrest
      cases fuel with
      | zero => rw [weight] at hfuel; omega
      | succ f =>
      rw [dumpVal, List.cons_append] at hcs
      simp only [List.append_assoc, List.cons_append, List.nil_append] at hcs
      have hself : skipWs (dumpVal (lvl + 1) x ++
          (dumpElems (lvl + 1) xs ++ (newlineIndent lvl ++ (']' :: rest)))) =
          dumpVal (lvl + 1) x ++
            (dumpElems (lvl + 1) xs ++ (newlineIndent lvl ++ (']' :: rest))) :=
        skipWs_dump _ _ _
      have helems := rt_elems xs x (ihl x (by simp)) (fun y hy => ihl y (by simp [hy]))
        f (lvl + 1) lvl _ rest (by rw [weight] at hfuel; omega) hself
      have hskip : skipWs (newlineIndent (lvl + 1) ++
          (dumpVal (lvl + 1) x ++ (dumpElems (lvl + 1) xs ++ (newlineIndent lvl ++
            (']' :: rest))))) =
          dumpVal (lvl + 1) x ++
            (dumpElems (lvl + 1) xs ++ (newlineIndent lvl ++ (']' :: rest))) := by
        rw [skipWs_newlineIndent, skipWs_dump]
      obtain ⟨c2, t2, hd2, hw2, hne2, _, _⟩ := dumpVal_head (lvl + 1) x
      simp only [parseValue]
      rw [hcs]
      norm_num
      rw [hskip, hd2, List.cons_append]
      simp [hne2]
      rw [← List.cons_append, ← hd2, helems]
  · intro ps ihp
    cases ps with
    | nil =>
      intro fuel lvl cs rest hfuel hcs hrest
      cases fuel with
      | zero => rw [weight] at hfuel; omega
      | succ f =>
      rw [dumpVal, List.cons_append, List.cons_append] at hcs
      simp only [parseValue]
      rw [hcs]
      simp [skipWs_cons_not_ws (show isWs '}' = false from by decide)]
    | cons p ps =>
      intro fuel lvl cs rest hfuel hcs hrest
      cases fuel with
      | zero => rw [weight] at hfuel; omega
      | succ f =>
      rw [dumpVal, List.cons_append] at hcs
      simp only [List.append_assoc, List.cons_append, List.nil_append] at hcs
      have hself : skipWs (dumpMember (lvl + 1) p ++
          (dumpMembers (lvl + 1) ps ++ (newlineIndent lvl ++ ('}' :: rest)))) =
          dumpMember (lvl + 1) p ++
            (dumpMembers (lvl + 1) ps ++ (newlineIndent lvl ++ ('}' :: rest))) := by
        rw [dumpMember, dumpString]
        simp only [List.cons_append, List.append_assoc]
        rw [skipWs_cons_not_ws (by decide)]
      have hmems := rt_members ps p (ihp p (by simp)) (fun q hq => ihp q (by simp [hq]))
        f (lvl + 1) lvl _ rest (by rw [weight] at hfuel; omega) hself
      have hskip : skipWs (newlineIndent (lvl + 1) ++
          (dumpMember (lvl + 1) p ++ (dumpMembers (lvl + 1) ps ++ (newlineIndent lvl ++
            ('}' :: rest))))) =
          dumpMember (lvl + 1) p ++
            (dumpMembers (lvl + 1) ps ++ (newlineIndent lvl ++ ('}' :: rest))) := by
        rw [skipWs_newlineIndent]
        rw [dumpMember, dumpString]
        simp only [List.cons_append, List.append_assoc]
        rw [skipWs_cons_not_ws (by decide)]
      obtain ⟨c2, t2, hd2⟩ : ∃ c2 t2, dumpMember (lvl + 1) p = c2 :: t2 ∧ c2 = '"' := by
        refine ⟨'"', escapeChars p.1.data ++ ('"' :: (':' :: ' ' :: dumpVal (lvl + 1) p.2)), ?_, rfl⟩
        rw [dumpMember, dumpString]
        simp
      simp only [parseValue]
      rw [hcs]
      norm_num
      rw [hskip, hd2.1, List.cons_append, hd2.2]
      simp
      rw [← hd2.2, ← List.cons_append, ← hd2.1, hmems]

/-! ## Whole-document round trip -/

theorem weightElems_le (xs : List Json)
    (h : ∀ x ∈ xs, ∀ lvl, weight x ≤ (dumpVal lvl x).length) :
    ∀ lvl, weightElems xs ≤ (dumpElems lvl xs).length := by
  induction xs with
  | nil => intro lvl; rw [weightElems, dumpElems]; simp
  | cons x xs ih =>
    intro lvl
    rw [weightElems, dumpElems]
    have h1 := h x (by simp) lvl
    have h2 := ih (fun y hy => h y (by simp [hy])) lvl
    rw [newlineIndent]
    simp only [List.length_cons, List.length_append, List.length_replicate]
    omega

theorem weightMembers_le (ps : List (String × Json))
    (h : ∀ p ∈ ps, ∀ lvl, weight p.2 ≤ (dumpVal lvl p.2).length) :
    ∀ lvl, weightMembers ps ≤ (dumpMembers lvl ps).length := by
  induction ps with
  | nil => intro lvl; rw [weightMembers, dumpMembers]; simp
  | cons p ps ih =>
    intro lvl
    rw [weightMembers, dumpMembers, dumpMember]
    have h1 := h p (by simp) lvl
    have h2 := ih (fun q hq => h q (by simp [hq])) lvl
    rw [newlineIndent]
    simp only [List.length_cons, List.length_append, List.length_replicate]
    omega

/-- The scanning fuel a document needs is dominated by the length of its
serialization, so `length + 1` fuel always suffices on serializer output. -/
theorem weight_le_dump : ∀ d : Json, ∀ lvl, weight d ≤ (dumpVal lvl d).length := by
  apply Json.indOn
  · intro lvl; rw [weight, dumpVal]; simp
  · intro b lvl; cases b <;> (rw [weight, dumpVal]; simp)
  · intro n lvl
    rw [weight, dumpVal]
    obtain ⟨c, t, heq, _⟩ := intChars_head n
    rw [heq]
    simp
  · intro s lvl
    rw [weight, dumpVal, dumpString]
    simp
  · intro l ih lvl
    cases l with
    | nil => rw [weight, dumpVal]; simp [weightElems]
    | cons x xs =>
      rw [weight, dumpVal, weightElems, newlineIndent, newlineIndent]
      have h1 := ih x (by simp) (lvl + 1)
      have h2 := weightElems_le xs (fun y hy => ih y (by simp [hy])) (lvl + 1)
      simp only [List.length_cons, List.length_append, List.length_replicate,
        List.length_singleton]
      omega
  · intro ps ih lvl
    cases ps with
    | nil => rw [weight, dumpVal]; simp [weightMembers]
    | cons p qs =>
      rw [weight, dumpVal, weightMembers, newlineIndent, newlineIndent, dumpMember]
      have h1 := ih p (by simp) (lvl + 1)
      have h2 := weightMembers_le qs (fun q hq => ih q (by simp [hq])) (lvl + 1)
      simp only [List.length_cons, List.length_append, List.length_replicate,
        List.length_singleton]
      omega

/-- Deserializing the serializer's output recovers the document, up to the
`OrderedDict` collapse of duplicate keys. -/
theorem json_loads_dump (d : Json) : json_loads (json_dump d) = some (toOD d) := by
  have hfuel : weight d ≤ (dumpVal 0 d).length + 1 := by
    have := weight_le_dump d 0
    omega
  have hskip : skipWs (dumpVal 0 d) = dumpVal 0 d ++ [] := by
    rw [List.append_nil]
    have h := skipWs_dump 0 d []
    rwa [List.append_nil] at h
  have h := rt_value d ((dumpVal 0 d).length + 1) 0 (dumpVal 0 d) [] hfuel hskip headNotDigit_nil
  rw [json_loads, parseDocument]
  rw [show (json_dump d).length = (dumpVal 0 d).length from rfl,
    show (json_dump d).data = dumpVal 0 d from rfl, h]
  rfl

/-- Every loaded document is a fixed point of the `OrderedDict` collapse. -/
theorem loads_toOD_fix {s : String} {d : Json} (h : json_loads s = some d) : toOD d = d := by
  rw [json_loads] at h
  cases hp : parseDocument s with
  | none => rw [hp] at h; cases h
  | some r =>
    rw [hp] at h
    have h' : some (toOD r) = some d := h
    cases h'
    exact toOD_idem r

/-- Serialize-then-parse is the identity on every loadable document. -/
theorem loads_dump_loads {s : String} {d : Json} (h : json_loads s = some d) :
    json_loads (json_dump d) = some d := by
  rw [json_loads_dump, loads_toOD_fix h]

/-! ## The script layer -/

/-- Strict-undefined rendering fails whenever some referenced placeholder has
no context entry (reporting the first such placeholder encountered). -/
theorem renderTemplate_missing : ∀ (t : Template) (ctx : Context) (k : String),
    k ∈ referencedVars t → ctxLookup ctx k = none →
    ∃ k', renderTemplate t ctx = .error (.undefinedVariable k') ∧ ctxLookup ctx k' = none := by
  intro t
  induction t with
  | nil =>
    intro ctx k h _
    rw [referencedVars] at h
    cases h
  | cons part rest ih =>
    cases part with
    | text s =>
      intro ctx k h hm
      rw [referencedVars] at h
      obtain ⟨k', he, hn⟩ := ih ctx k h hm
      refine ⟨k', ?_, hn⟩
      rw [renderTemplate, he]
    | var n =>
      intro ctx k h hm
      cases hl : ctxLookup ctx n with
      | none => exact ⟨n, by rw [renderTemplate, hl], hl⟩
      | some v =>
        rw [referencedVars] at h
        rcases List.mem_cons.1 h with hk | hk
        · rw [hk, hl] at hm
          cases hm
        · obtain ⟨k', he, hn⟩ := ih ctx k hk hm
          refine ⟨k', ?_, hn⟩
          rw [renderTemplate, hl, he]

/-- Every `generate_config` call either succeeds or leaves the filesystem
exactly as it was. -/
theorem generate_config_cases (env : String → Option Template) (t out : String)
    (ctx : Context) (fs : FS) :
    (generate_config env t out ctx fs).1 = none ∨
      (generate_config env t out ctx fs).2 = fs := by
  unfold generate_config
  split
  · right; rfl
  · split
    · right; rfl
    · split
      · right; rfl
      · split
        · left; rfl
        · right; rfl

/-- A failing `generate_config` call leaves the filesystem untouched. -/
theorem generate_config_error_keeps_fs {env : String → Option Template} {t out : String}
    {ctx : Context} {fs : FS} {e : GenError}
    (h : (generate_config env t out ctx fs).1 = some e) :
    (generate_config env t out ctx fs).2 = fs := by
  rcases generate_config_cases env t out ctx fs with hc | hc
  · rw [h] at hc
    cases hc
  · exact hc

/-- Anatomy of a successful `generate_config` call: the template was found,
rendered in full, its output parsed, and the parsed document's serialization
was written over the output path. -/
theorem generate_config_success {env : String → Option Template} {t out : String}
    {ctx : Context} {fs fs' : FS}
    (h : generate_config env t out ctx fs = (none, fs')) :
    ∃ tm raw d, env t = some tm ∧ renderTemplate tm ctx = .ok raw ∧
      json_loads raw = some d ∧ fs.writable out = true ∧
      fs' = fs.write out (json_dump d) := by
  unfold generate_config at h
  split at h
  · cases h
  · rename_i tm henv
    split at h
    · cases h
    · rename_i raw hrender
      split at h
      · cases h
      · rename_i d hloads
        split at h
        · rename_i hw
          refine ⟨tm, raw, d, henv, hrender, hloads, hw, ?_⟩
          cases h
          rfl
        · cases h

/-! ## The claims -/

/-- C1: for every template that references a context key absent from the
supplied context mapping, `generate_config` fails with a context error
(strict-undefined semantics: the reported placeholder is itself unbound) and
writes no output file — the whole filesystem, in particular the output path's
contents, is unchanged after the failed call. -/
theorem C1_missing_context_key_fails_without_writing
    (env : String → Option Template) (template output_file : String) (context : Context)
    (fs : FS) (t : Template) (k : String)
    (henv : env template = some t)
    (href : k ∈ referencedVars t)
    (hmiss : ctxLookup context k = none) :
    ∃ k', generate_config env template output_file context fs =
        (some (GenError.undefinedVariable k'), fs) ∧ ctxLookup context k' = none := by
  obtain ⟨k', he, hn⟩ := renderTemplate_missing t context k href hmiss
  refine ⟨k', ?_, hn⟩
  simp only [generate_config, henv, he]

theorem C1_witness :
    ∃ k', generate_config demo_env "undef.template.json" "out.json" [] empty_fs =
        (some (GenError.undefinedVariable k'), empty_fs) ∧ ctxLookup [] k' = none :=
  C1_missing_context_key_fails_without_writing demo_env "undef.template.json" "out.json"
    [] empty_fs undef_template "missing_cluster" rfl (by rw [undef_template]; simp [referencedVars])
    rfl

/-- C2: for every template whose rendered text does not parse as JSON,
`generate_config` fails with the output-validity error; the parse step runs
before the output file is opened, so the call returns with the filesystem — in
particular the output path's contents — unchanged. -/
theorem C2_invalid_rendered_output_fails_without_writing
    (env : String → Option Template) (template output_file : String) (context : Context)
    (fs : FS) (t : Template) (raw : String)
    (henv : env template = some t)
    (hrender : renderTemplate t context = .ok raw)
    (hbad : json_loads raw = none) :
    generate_config env template output_file context fs = (some GenError.invalidJson, fs) := by
  simp only [generate_config, henv, hrender, hbad]

theorem C2_witness :
    generate_config demo_env "bad.template.json" "out.json" [] empty_fs =
      (some GenError.invalidJson, empty_fs) :=
  C2_invalid_rendered_output_fails_without_writing demo_env "bad.template.json" "out.json"
    [] empty_fs bad_json_template "\x7b" rfl rfl rfl

/-- C3: key order in the written output is first-seen order from the rendered
text, at every nesting level.  Formally: (a) loading a scannable rendered text
yields the scanned document with the `OrderedDict` collapse `toOD` applied at
every nesting level (the definition of `toOD` applies `odOfPairs` to every
mapping of the tree); (b) the keys `odOfPairs` produces at each level are
exactly the raw keys of that mapping in first-seen order, not alphabetical or
any other order; (c) the written file parses back to the very same ordered
document, so its mappings carry exactly those key orders at every level. -/
theorem C3_key_order_is_first_seen
    : (∀ s r, parseDocument s = some r → json_loads s = some (toOD r)) ∧
      (∀ ps : List (String × Json),
        (odOfPairs ps).map Prod.fst = dedupFirst (ps.map Prod.fst)) ∧
      (∀ s d, json_loads s = some d → json_loads (json_dump d) = some d) := by
  refine ⟨?_, ?_, ?_⟩
  · intro s r h
    rw [json_loads, h]
    rfl
  · exact odOfPairs_keys
  · intro s d h
    exact loads_dump_loads h

theorem C3_witness :
    json_loads "\x7b\"b\": 1, \"a\": 2, \"b\": 3\x7d" =
        some (toOD (Json.obj [("b", .num 1), ("a", .num 2), ("b", .num 3)])) ∧
      json_loads (json_dump (toOD (Json.obj [("b", .num 1), ("a", .num 2), ("b", .num 3)]))) =
        some (toOD (Json.obj [("b", .num 1), ("a", .num 2), ("b", .num 3)])) :=
  ⟨C3_key_order_is_first_seen.1 "\x7b\"b\": 1, \"a\": 2, \"b\": 3\x7d"
      (Json.obj [("b", .num 1), ("a", .num 2), ("b", .num 3)]) rfl,
    C3_key_order_is_first_seen.2.2 "\x7b\"b\": 1, \"a\": 2, \"b\": 3\x7d"
      (toOD (Json.obj [("b", .num 1), ("a", .num 2), ("b", .num 3)]))
      (C3_key_order_is_first_seen.1 "\x7b\"b\": 1, \"a\": 2, \"b\": 3\x7d"
        (Json.obj [("b", .num 1), ("a", .num 2), ("b", .num 3)]) rfl)⟩

/-- C4: for every `(template, context)` pair whose render and parse succeed,
the file `generate_config` writes, when parsed again, is structurally identical
to the document obtained by parsing the rendered text directly:
`parse (serialize (parse raw)) = parse raw`. -/
theorem C4_written_file_reparses_to_same_document
    (env : String → Option Template) (template output_file : String) (context : Context)
    (fs fs' : FS)
    (h : generate_config env template output_file context fs = (none, fs')) :
    ∃ t raw d, env template = some t ∧ renderTemplate t context = .ok raw ∧
      json_loads raw = some d ∧ fs'.contents output_file = some (json_dump d) ∧
      json_loads (json_dump d) = some d := by
  obtain ⟨tm, raw, d, henv, hrender, hloads, hw, hfs'⟩ := generate_config_success h
  refine ⟨tm, raw, d, henv, hrender, hloads, ?_, loads_dump_loads hloads⟩
  rw [hfs']
  simp [FS.write]

theorem C4_witness :
    ∃ t raw d, demo_env "good.template.json" = some t ∧ renderTemplate t [] = .ok raw ∧
      json_loads raw = some d ∧
      (FS.write empty_fs "out.json" (json_dump (toOD demo_doc))).contents "out.json" =
        some (json_dump d) ∧
      json_loads (json_dump d) = some d :=
  C4_written_file_reparses_to_same_document demo_env "good.template.json" "out.json" []
    empty_fs (FS.write empty_fs "out.json" (json_dump (toOD demo_doc))) rfl

/-- C5: for every successful call, the final contents of the output path are
exactly the two-space-indented serialization of the parsed document
(`json_dump` is the `indent=2` serializer), every other path is untouched, and
the written bytes are the same whatever the output path held before — the
prior contents are fully replaced. -/
theorem C5_output_is_exactly_the_serialization
    (env : String → Option Template) (template output_file : String) (context : Context)
    (fs fs' : FS)
    (h : generate_config env template output_file context fs = (none, fs')) :
    ∃ d, fs'.contents output_file = some (json_dump d) ∧
      (∀ q, q ≠ output_file → fs'.contents q = fs.contents q) ∧
      (∀ fs2 fs2', generate_config env template output_file context fs2 = (none, fs2') →
        fs2'.contents output_file = some (json_dump d)) := by
  obtain ⟨tm, raw, d, henv, hrender, hloads, hw, hfs'⟩ := generate_config_success h
  refine ⟨d, ?_, ?_, ?_⟩
  · rw [hfs']
    simp [FS.write]
  · intro q hq
    rw [hfs']
    simp [FS.write, hq]
  · intro fs2 fs2' h2
    obtain ⟨tm2, raw2, d2, henv2, hrender2, hloads2, hw2, hfs2'⟩ := generate_config_success h2
    rw [henv] at henv2
    cases henv2
    rw [hrender] at hrender2
    cases hrender2
    rw [hloads] at hloads2
    cases hloads2
    rw [hfs2']
    simp [FS.write]

theorem C5_witness :
    ∃ d, (FS.write prefilled_fs "out.json" (json_dump (toOD demo_doc))).contents "out.json" =
        some (json_dump d) ∧
      (∀ q, q ≠ "out.json" →
        (FS.write prefilled_fs "out.json" (json_dump (toOD demo_doc))).contents q =
          prefilled_fs.contents q) ∧
      (∀ fs2 fs2', generate_config demo_env "good.template.json" "out.json" [] fs2 =
          (none, fs2') → fs2'.contents "out.json" = some (json_dump d)) :=
  C5_output_is_exactly_the_serialization demo_env "good.template.json" "out.json" []
    prefilled_fs (FS.write prefilled_fs "out.json" (json_dump (toOD demo_doc))) rfl

/-- C6: serialization is idempotent and stable.  Serializing is a pure function
of the document (two calls on the same document are the same expression, hence
byte-identical); the substantial half proved here is stability: for every
loaded document, re-parsing its serialization succeeds and serializing the
re-parsed document yields byte-identical text. -/
theorem C6_serialization_idempotent_and_stable
    (s : String) (d : Json) (h : json_loads s = some d) :
    ∃ d2, json_loads (json_dump d) = some d2 ∧ json_dump d2 = json_dump d := by
  exact ⟨d, loads_dump_loads h, rfl⟩

theorem C6_witness :
    ∃ d2, json_loads (json_dump (toOD demo_doc)) = some d2 ∧
      json_dump d2 = json_dump (toOD demo_doc) :=
  C6_serialization_idempotent_and_stable "\x7b\"b\": 1, \"a\": 2\x7d" (toOD demo_doc) rfl

/-- C7: every error aborts the current `generate_config` call immediately with
the filesystem untouched (no retry, no partial output), and the top-level
script has no error-handling layer: a failure in any of its three generation
calls terminates the whole run with that error, and the later calls do not
execute — the filesystem stays exactly as the already-completed calls left it. -/
theorem C7_errors_abort_run_and_skip_later_calls
    (env : String → Option Template) (output_dir : String) :
    (∀ t out ctx fs e, (generate_config env t out ctx fs).1 = some e →
      (generate_config env t out ctx fs).2 = fs) ∧
    (∀ fs e,
      (generate_config env "envoy_front_proxy.template.json"
        (output_dir ++ "/envoy_front_proxy.json") [("clusters", front_envoy_clusters)] fs).1 =
          some e →
      main_script env output_dir fs = (some e, fs)) ∧
    (∀ fs fs1 e,
      generate_config env "envoy_front_proxy.template.json"
        (output_dir ++ "/envoy_front_proxy.json") [("clusters", front_envoy_clusters)] fs =
          (none, fs1) →
      (generate_config env "envoy_double_proxy.template.json"
        (output_dir ++ "/envoy_double_proxy.json") [] fs1).1 = some e →
      main_script env output_dir fs = (some e, fs1)) ∧
    (∀ fs fs1 fs2 e,
      generate_config env "envoy_front_proxy.template.json"
        (output_dir ++ "/envoy_front_proxy.json") [("clusters", front_envoy_clusters)] fs =
          (none, fs1) →
      generate_config env "envoy_double_proxy.template.json"
        (output_dir ++ "/envoy_double_proxy.json") [] fs1 = (none, fs2) →
      (generate_config env "envoy_service_to_service.template.json"
        (output_dir ++ "/envoy_service_to_service.json")
        [("internal_virtual_hosts", service_to_service_envoy_clusters),
         ("external_virtual_hosts", external_virtual_hosts),
         ("mongos_servers", mongos_servers)] fs2).1 = some e →
      main_script env output_dir fs = (some e, fs2)) := by
  refine ⟨?_, ?_, ?_, ?_⟩
  · intro t out ctx fs e h
    exact generate_config_error_keeps_fs h
  · intro fs e h
    have h2 := generate_config_error_keeps_fs h
    have hpair : generate_config env "envoy_front_proxy.template.json"
        (output_dir ++ "/envoy_front_proxy.json") [("clusters", front_envoy_clusters)] fs =
        ((generate_config env "envoy_front_proxy.template.json"
          (output_dir ++ "/envoy_front_proxy.json")
          [("clusters", front_envoy_clusters)] fs).1,
         (generate_config env "envoy_front_proxy.template.json"
          (output_dir ++ "/envoy_front_proxy.json")
          [("clusters", front_envoy_clusters)] fs).2) := rfl
    rw [h, h2] at hpair
    rw [main_script, generation_calls, runCalls, hpair]
  · intro fs fs1 e h1 h2
    have h3 := generate_config_error_keeps_fs h2
    have hpair : generate_config env "envoy_double_proxy.template.json"
        (output_dir ++ "/envoy_double_proxy.json") [] fs1 =
        ((generate_config env "envoy_double_proxy.template.json"
          (output_dir ++ "/envoy_double_proxy.json") [] fs1).1,
         (generate_config env "envoy_double_proxy.template.json"
          (output_dir ++ "/envoy_double_proxy.json") [] fs1).2) := rfl
    rw [h2, h3] at hpair
    rw [main_script, generation_calls, runCalls, h1]
    show runCalls env
      [("envoy_double_proxy.template.json", output_dir ++ "/envoy_double_proxy.json", []),
       ("envoy_service_to_service.template.json",
         output_dir ++ "/envoy_service_to_service.json",
         [("internal_virtual_hosts", service_to_service_envoy_clusters),
          ("external_virtual_hosts", external_virtual_hosts),
          ("mongos_servers", mongos_servers)])] fs1 = (some e, fs1)
    rw [runCalls, hpair]
  · intro fs fs1 fs2 e h1 h2 h3
    have h4 := generate_config_error_keeps_fs h3
    have hpair : generate_config env "envoy_service_to_service.template.json"
        (output_dir ++ "/envoy_service_to_service.json")
        [("internal_virtual_hosts", service_to_service_envoy_clusters),
         ("external_virtual_hosts", external_virtual_hosts),
         ("mongos_servers", mongos_servers)] fs2 =
        ((generate_config env "envoy_service_to_service.template.json"
          (output_dir ++ "/envoy_service_to_service.json")
          [("internal_virtual_hosts", service_to_service_envoy_clusters),
           ("external_virtual_hosts", external_virtual_hosts),
           ("mongos_servers", mongos_servers)] fs2).1,
         (generate_config env "envoy_service_to_service.template.json"
          (output_dir ++ "/envoy_service_to_service.json")
          [("internal_virtual_hosts", service_to_service_envoy_clusters),
           ("external_virtual_hosts", external_virtual_hosts),
           ("mongos_servers", mongos_servers)] fs2).2) := rfl
    rw [h3, h4] at hpair
    rw [main_script, generation_calls, runCalls, h1]
    show runCalls env
      [("envoy_double_proxy.template.json", output_dir ++ "/envoy_double_proxy.json", []),
       ("envoy_service_to_service.template.json",
         output_dir ++ "/envoy_service_to_service.json",
         [("internal_virtual_hosts", service_to_service_envoy_clusters),
          ("external_virtual_hosts", external_virtual_hosts),
          ("mongos_servers", mongos_servers)])] fs1 = (some e, fs2)
    rw [runCalls, h2]
    show runCalls env
      [("envoy_service_to_service.template.json",
         output_dir ++ "/envoy_service_to_service.json",
         [("internal_virtual_hosts", service_to_service_envoy_clusters),
          ("external_virtual_hosts", external_virtual_hosts),
          ("mongos_servers", mongos_servers)])] fs2 = (some e, fs2)
    rw [runCalls, hpair]

theorem C7_witness :
    main_script none_env "demo" empty_fs =
      (some (GenError.templateNotFound "envoy_front_proxy.template.json"), empty_fs) :=
  (C7_errors_abort_run_and_skip_later_calls none_env "demo").2.1 empty_fs
    (GenError.templateNotFound "envoy_front_proxy.template.json") rfl

/-- C8: the inline static demo data and its use.  The script body makes exactly
three generation calls whose non-context arguments are fixed template names and
output paths under the command-line directory; the demo data appears only as
the context values of those calls, exactly as listed.  Among the four
module-level data bindings there are exactly three named cluster tables
(`front_envoy_clusters`, `service_to_service_envoy_clusters` and
`mongos_servers` — the source's comments call each a set of clusters), exactly
one list of external virtual hosts with TLS verification metadata
(`external_virtual_hosts`), and exactly one sharded-router table with a
per-cluster rate-limit flag (`mongos_servers`, which is the third cluster
table). -/
theorem C8_static_demo_data_shape_and_use (output_dir : String) :
    static_demo_data.map Prod.fst =
      ["front_envoy_clusters", "service_to_service_envoy_clusters",
       "external_virtual_hosts", "mongos_servers"] ∧
    (generation_calls output_dir).length = 3 ∧
    (generation_calls output_dir).map (fun c => (c.1, c.2.1)) =
      [("envoy_front_proxy.template.json", output_dir ++ "/envoy_front_proxy.json"),
       ("envoy_double_proxy.template.json", output_dir ++ "/envoy_double_proxy.json"),
       ("envoy_service_to_service.template.json",
         output_dir ++ "/envoy_service_to_service.json")] ∧
    (generation_calls output_dir).map (fun c => c.2.2) =
      [[("clusters", front_envoy_clusters)],
       [],
       [("internal_virtual_hosts", service_to_service_envoy_clusters),
        ("external_virtual_hosts", external_virtual_hosts),
        ("mongos_servers", mongos_servers)]] ∧
    (static_demo_data.filter (fun b => isClusterTable b.2)).map Prod.fst =
      ["front_envoy_clusters", "service_to_service_envoy_clusters", "mongos_servers"] ∧
    (static_demo_data.filter (fun b => isVhostListWithTls b.2)).map Prod.fst =
      ["external_virtual_hosts"] ∧
    (static_demo_data.filter (fun b => isMongosTableWithRatelimit b.2)).map Prod.fst =
      ["mongos_servers"] :=
  ⟨rfl, rfl, rfl, rfl, rfl, rfl, rfl⟩

/-- C9: well-formedness validation does not reject duplicate mapping keys.
Any scannable rendered text loads — the only transformation applied is the
`OrderedDict` collapse at every nesting level — and in the collapsed mapping
each key sits at its first-seen position (first-seen key order) while reading
it yields the value of its last occurrence among the raw pairs. -/
theorem C9_duplicate_keys_accepted_first_position_last_value
    : (∀ s r, parseDocument s = some r → json_loads s = some (toOD r)) ∧
      (∀ ps : List (String × Json),
        (odOfPairs ps).map Prod.fst = dedupFirst (ps.map Prod.fst)) ∧
      (∀ (ps : List (String × Json)) (k : String),
        lookupKey (odOfPairs ps) k = lastVal ps k) := by
  refine ⟨?_, odOfPairs_keys, odOfPairs_lookup⟩
  intro s r h
  rw [json_loads, h]
  rfl

theorem C9_witness :
    json_loads "\x7b\"a\": 1, \"b\": 2, \"a\": 3\x7d" =
        some (toOD (Json.obj [("a", .num 1), ("b", .num 2), ("a", .num 3)])) ∧
      lookupKey (odOfPairs [("a", .num 1), ("b", .num 2), ("a", .num 3)]) "a" =
        lastVal [("a", .num 1), ("b", .num 2), ("a", .num 3)] "a" :=
  ⟨C9_duplicate_keys_accepted_first_position_last_value.1
      "\x7b\"a\": 1, \"b\": 2, \"a\": 3\x7d"
      (Json.obj [("a", .num 1), ("b", .num 2), ("a", .num 3)]) rfl,
    C9_duplicate_keys_accepted_first_position_last_value.2.2
      [("a", .num 1), ("b", .num 2), ("a", .num 3)] "a"⟩

/-- C10: `generate_config` is deterministic.  Two successful calls given the
same template environment, template name, output path and context mapping
(identical key order and values) write byte-identical contents to the output
path, whatever the two initial filesystems held. -/
theorem C10_generate_config_deterministic
    (env : String → Option Template) (template output_file : String) (context : Context)
    (fs1 fs2 r1 r2 : FS)
    (h1 : generate_config env template output_file context fs1 = (none, r1))
    (h2 : generate_config env template output_file context fs2 = (none, r2)) :
    r1.contents output_file = r2.contents output_file := by
  obtain ⟨tm, raw, d, henv, hrender, hloads, hw, hr1⟩ := generate_config_success h1
  obtain ⟨tm2, raw2, d2, henv2, hrender2, hloads2, hw2, hr2⟩ := generate_config_success h2
  rw [henv] at henv2
  cases henv2
  rw [hrender] at hrender2
  cases hrender2
  rw [hloads] at hloads2
  cases hloads2
  rw [hr1, hr2]
  simp [FS.write]

theorem C10_witness :
    (FS.write empty_fs "out.json" (json_dump (toOD demo_doc))).contents "out.json" =
      (FS.write prefilled_fs "out.json" (json_dump (toOD demo_doc))).contents "out.json" :=
  C10_generate_config_deterministic demo_env "good.template.json" "out.json" []
    empty_fs prefilled_fs
    (FS.write empty_fs "out.json" (json_dump (toOD demo_doc)))
    (FS.write prefilled_fs "out.json" (json_dump (toOD demo_doc)))
    rfl rfl

end Configgen
